import Mathlib

/-!
Verification of the snapshot key-normalization and rank-delta engine of
the Qoo10 JP beauty-bestsellers tracker (src/app.py).

The Python source is shallowly embedded on `List Char` / `String`:

* pure text helpers (`clean_text`, `strip_brackets_for_slack`, the yen
  amount / percent regexes, `compute_prices`) are translated as
  executable Lean functions; the regular expressions are translated as
  explicit left-to-right scanners that reproduce the Python `re`
  behaviour (leftmost match, alternation order, greedy/lazy
  backtracking) on the character classes the source uses;
* `urllib.parse`-based URL normalization (`_norm_url`) is translated
  together with the relevant fragment of `urllib.parse`
  (`urlparse`, `parse_qsl`, `urlencode`, `urlunparse`, `quote_plus`,
  `unquote_plus`); percent-escapes are decoded/encoded through UTF-8
  bytes as CPython does;
* DOM extraction done by BeautifulSoup / the in-page JavaScript is out
  of scope (the spec treats it as the scraping collaborator): a raw
  listing row enters the model as the tuple of strings the DOM queries
  would have produced;
* pandas DataFrames become lists of records; `DataFrame.set_index`
  becomes a list of (key, record) pairs (pandas keeps duplicate and
  empty index labels, and so does the model); iteration over a Python
  `set` (whose order is unspecified) is modelled as iteration in
  first-appearance order;
* Python floats in `compute_prices` are modelled by exact rational /
  integer arithmetic (the floor of an exact ratio); `str.lower` is
  modelled on ASCII (all non-ASCII characters appearing in the data of
  this program are caseless).
-/

namespace Qoo10

set_option maxRecDepth 100000

/-- Python whitespace (`\s` of the `re` module, `str.strip`): the ASCII
whitespace characters plus the non-breaking and ideographic spaces that
can occur in scraped Japanese text. -/
def pyWs (c : Char) : Bool :=
  c.toNat == 32 || c.toNat == 9 || c.toNat == 10 || c.toNat == 13 ||
  c.toNat == 11 || c.toNat == 12 || c.toNat == 160 || c.toNat == 12288

/-- ASCII lower-casing of one character (model of `str.lower`; every
non-ASCII character this program manipulates is caseless). -/
def lowerChar (c : Char) : Char :=
  if 65 ≤ c.toNat ∧ c.toNat ≤ 90 then Char.ofNat (c.toNat + 32) else c

/-- Model of `str.lower` on a character list. -/
def lowerL (l : List Char) : List Char := l.map lowerChar

/-- Model of `str.strip()`: drop leading and trailing whitespace. -/
def pyStrip (l : List Char) : List Char :=
  ((l.dropWhile pyWs).reverse.dropWhile pyWs).reverse

/-- Auxiliary state machine for `re.sub(r"\s+", " ", s)`: the flag says
whether we are inside a whitespace run whose single replacement space has
already been emitted. -/
def collapseWsAux : Bool → List Char → List Char
  | _, [] => []
  | inRun, c :: rest =>
    if pyWs c then
      if inRun then collapseWsAux true rest
      else ' ' :: collapseWsAux true rest
    else c :: collapseWsAux false rest

/-- Model of `clean_text` (src/app.py line 50):
`re.sub(r"\s+", " ", s).strip()`. -/
def clean_text (l : List Char) : List Char :=
  pyStrip (collapseWsAux false l)

/-- String wrapper for `clean_text`. -/
def cleanTextS (s : String) : String := String.mk (clean_text s.data)

/-- Substring test, the Python `needle in haystack` operator. -/
def containsSub (hay needle : List Char) : Bool :=
  match hay with
  | [] => needle.isEmpty
  | _ :: rest => needle.isPrefixOf hay || containsSub rest needle

/-- Lexicographic (code-point) strict comparison of Python strings. -/
def charsLt : List Char → List Char → Bool
  | [], [] => false
  | [], _ :: _ => true
  | _ :: _, [] => false
  | a :: as, b :: bs =>
    if a.toNat < b.toNat then true
    else if b.toNat < a.toNat then false
    else charsLt as bs

/-- Lexicographic (code-point) non-strict comparison of Python strings. -/
def charsLe (a b : List Char) : Bool := !(charsLt b a)

/-- ASCII decimal digit test (`\d` on the data this program sees). -/
def isDigitN (c : Char) : Bool := 48 ≤ c.toNat && c.toNat ≤ 57

/-- Numeric value of a digit string (`int` applied to a digit literal). -/
def digitsVal (l : List Char) : Nat :=
  l.foldl (fun a c => 10 * a + (c.toNat - 48)) 0

/-! ## The yen-amount regex

`YEN_AMOUNT_RE = re.compile(r"(?:¥|)(\d{1,3}(?:,\d{3})+|\d+)\s*円")`
(src/app.py line 71). `matchYenAt` decides whether a match starts at the
given position, with the Python backtracking order: optional `¥`, then
the comma-grouped alternative (`\d{1,3}` greedy, `(?:,\d{3})+` greedy),
then the plain `\d+` alternative, each followed by `\s*円`. -/

/-- Successive `(?:,\d{3})` groups: returns, in ascending group count,
the accumulated digit characters and the remaining input. -/
def commaGroups (acc : List Char) : List Char → List (List Char × List Char)
  | ',' :: d1 :: d2 :: d3 :: rest =>
    if isDigitN d1 && isDigitN d2 && isDigitN d3 then
      let acc2 := acc ++ [d1, d2, d3]
      (acc2, rest) :: commaGroups acc2 rest
    else []
  | _ => []

/-- Tail check `\s*円`: maximal whitespace run, then the yen character.
(Backtracking the `\s*` cannot help: a shorter run leaves a whitespace
character where `円` is required.) -/
def wsYen (l : List Char) : Option (List Char) :=
  match l.dropWhile pyWs with
  | c :: r => if c == '円' then some r else none
  | [] => none

/-- First candidate in the list whose tail matches `\s*円`. -/
def firstWsYen : List (List Char × List Char) → Option (Nat × List Char)
  | [] => none
  | (ds, rest) :: more =>
    match wsYen rest with
    | some after => some (digitsVal ds, after)
    | none => firstWsYen more

/-- The comma-grouped alternative `\d{1,3}(?:,\d{3})+` followed by
`\s*円`, trying `\d{1,3}` lengths 3, 2, 1 (greedy) and within each the
group counts from largest to smallest (greedy `+`). -/
def tryAlt1 (s : List Char) : Option (Nat × List Char) :=
  let tryLen : Nat → Option (Nat × List Char) := fun n =>
    let ds := s.take n
    if ds.length == n && ds.all isDigitN then
      firstWsYen ((commaGroups ds (s.drop n)).reverse)
    else none
  match tryLen 3 with
  | some r => some r
  | none => match tryLen 2 with
    | some r => some r
    | none => tryLen 1

/-- The plain alternative `\d+` followed by `\s*円`. Backtracking the
greedy `\d+` cannot help (a shorter match leaves a digit where `円` or
whitespace is required), so only the maximal digit run is checked. -/
def tryAlt2 (s : List Char) : Option (Nat × List Char) :=
  let ds := s.takeWhile isDigitN
  if ds.isEmpty then none
  else
    match wsYen (s.dropWhile isDigitN) with
    | some after => some (digitsVal ds, after)
    | none => none

/-- Match of the yen-amount regex starting exactly at the head of `s`
(the optional `¥` consumed first, as the alternation `(?:¥|)` does:
if the rest fails after `¥`, the empty alternative also fails because
`¥` is not a digit). -/
def matchYenAt (s : List Char) : Option (Nat × List Char) :=
  let s1 := match s with
    | c :: rest => if c == '¥' then rest else s
    | [] => s
  match tryAlt1 s1 with
  | some r => some r
  | none => tryAlt2 s1

/-- Left-to-right non-overlapping scan of `YEN_AMOUNT_RE.finditer`,
driven by a fuel counter equal to the input length (each step either
consumes the whole match or advances one character, so the fuel never
runs out on the semantics). -/
def yenScanAux : Nat → List Char → List Nat
  | 0, _ => []
  | _, [] => []
  | fuel + 1, c :: rest =>
    match matchYenAt (c :: rest) with
    | some (n, after) => n :: yenScanAux fuel after
    | none => yenScanAux fuel rest

/-- Model of `parse_jpy_amounts` (src/app.py lines 74-75): all amounts
matched by the yen regex, thousands separators stripped. -/
def parse_jpy_amounts (t : String) : List Nat :=
  yenScanAux t.data.length t.data

/-! ## The percent regex

`PCT_RE = re.compile(r"(\d+)\s*% ?OFF", re.I)` (src/app.py line 72). -/

/-- Case-insensitive check for the literal tail `OFF`. -/
def offTail (l : List Char) : Bool :=
  match l with
  | a :: b :: c :: _ =>
    (lowerChar a == 'o') && (lowerChar b == 'f') && (lowerChar c == 'f')
  | _ => false

/-- Match of `(\d+)\s*% ?OFF` starting at the head of `s`: maximal digit
run (backtracking a greedy `\d+` leaves a digit where `%` or whitespace
is required, so it cannot help), maximal `\s*`, `%`, one optional space
(greedy), then `OFF` case-insensitively. -/
def pctAt (s : List Char) : Option Nat :=
  let ds := s.takeWhile isDigitN
  if ds.isEmpty then none
  else
    match (s.dropWhile isDigitN).dropWhile pyWs with
    | '%' :: rest =>
      match rest with
      | ' ' :: rest2 =>
        if offTail rest2 then some (digitsVal ds)
        else if offTail rest then some (digitsVal ds) else none
      | _ => if offTail rest then some (digitsVal ds) else none
    | _ => none

/-- Leftmost-match scan of `PCT_RE.search`, fuel-driven. -/
def pctScanAux : Nat → List Char → Option Nat
  | 0, _ => none
  | _, [] => none
  | fuel + 1, c :: rest =>
    match pctAt (c :: rest) with
    | some n => some n
    | none => pctScanAux fuel rest

/-- Model of `PCT_RE.search(text)`: the captured integer of the leftmost
match, if any. -/
def pctSearch (t : String) : Option Nat :=
  pctScanAux t.data.length t.data

/-! ## IEEE-754 binary64 model

`compute_prices` evaluates `int(math.floor((1 - sale / orig) * 100))`
in Python floats. Every step is IEEE-754 binary64 arithmetic with
round-to-nearest, ties-to-even: CPython's `int / int` produces the
correctly rounded double of the exact quotient, and float subtraction
and multiplication are correctly rounded. A binary64 value is a dyadic
rational `m * 2^e` with `|m| < 2^53`; the model below computes with
exact integers on such pairs. Exponent bounds (overflow to `inf`,
subnormal underflow) are not modelled: every quantity reachable here —
a quotient of two positive parsed amounts, its distance from 1, and
that times 100 — either is zero or has an exponent far inside the
normal range unless an amount exceeds about `10^300`, and even for a
tinier quotient the subsequent subtraction from 1 rounds to the same
double either way. -/

/-- `⌊log₂ n⌋` (0 for `n = 0`), fuel-driven so the kernel can evaluate
it (`fuel ≥ log₂ n` suffices; `natLog2` passes `n` itself). -/
def natLog2F : Nat → Nat → Nat
  | 0, _ => 0
  | fuel + 1, n => if 2 ≤ n then natLog2F fuel (n / 2) + 1 else 0

/-- `⌊log₂ n⌋` (0 for `n = 0`). -/
def natLog2 (n : Nat) : Nat := natLog2F n n

/-- `num / den` rounded to the nearest integer, ties to even. -/
def rndDiv (num den : Nat) : Nat :=
  let q := num / den
  let r := num % den
  if 2 * r < den then q
  else if den < 2 * r then q + 1
  else if q % 2 = 0 then q else q + 1

/-- The correctly rounded binary64 quotient `fl(s / o)` as a dyadic
pair `(m, p)` with value `m * 2^p` (CPython `int.__truediv__` rounds
the exact ratio to nearest, ties to even). The exponent `k` with
`2^k ≤ s/o < 2^(k+1)` is the bit-length estimate corrected by one
comparison; the significand is the rounded quotient scaled to
`[2^52, 2^53)`. -/
def flDiv (s o : Nat) : Int × Int :=
  if s = 0 then (0, 0)
  else
    let k0 : Int := (natLog2 s : Int) - (natLog2 o : Int)
    let k : Int := if s * 2 ^ (-k0).toNat < o * 2 ^ k0.toNat then k0 - 1 else k0
    let p : Int := k - 52
    ((rndDiv (s * 2 ^ (-p).toNat) (o * 2 ^ p.toNat) : Nat), p)

/-- Round an exact dyadic `n * 2^e` to binary64 (53-bit significand),
nearest, ties to even. -/
def roundDy (n e : Int) : Int × Int :=
  if n = 0 then (0, 0)
  else
    let b := natLog2 n.natAbs
    if b ≤ 52 then (n, e)
    else
      let sh := b - 52
      let m := rndDiv n.natAbs (2 ^ sh)
      (if n < 0 then -(m : Int) else (m : Int), e + (sh : Int))

/-- Binary64 subtraction `fl(1 - d)` for `d = m * 2^p`: the difference
is computed exactly as a dyadic and then rounded. -/
def flSub1 (m p : Int) : Int × Int :=
  let e : Int := min p 0
  let n : Int := 2 ^ (-e).toNat - m * 2 ^ (p - e).toNat
  roundDy n e

/-- Binary64 multiplication `fl(t * 100)` for `t = m * 2^p` (100 is an
exact double, the product is exact as a dyadic, then rounded). -/
def flMul100 (m p : Int) : Int × Int := roundDy (m * 100) p

/-- `math.floor` of a dyadic `m * 2^e` (exact on doubles). -/
def dyFloor (m e : Int) : Int :=
  if 0 ≤ e then m * 2 ^ e.toNat else Int.fdiv m (2 ^ (-e).toNat)

/-- The value of Python's `int(math.floor((1 - sale / orig) * 100))`
(src/app.py line 88) in IEEE-754 binary64 arithmetic: correctly
rounded division, subtraction from 1, multiplication by 100, then the
exact floor. E.g. `floorPct64 800 1000 = 19` (not the exact-rational
20): `1 - 0.8` is `0.19999999999999996…` in doubles. -/
def floorPct64 (sale orig : Nat) : Int :=
  let d := flDiv sale orig
  let t1 := flSub1 d.1 d.2
  let t2 := flMul100 t1.1 t1.2
  dyFloor t2.1 t2.2

/-! ## compute_prices -/

/-- Result record of `compute_prices` (src/app.py lines 77-89): the
tuple `(sale, orig, pct)`. -/
structure PriceInfo where
  sale : Option Nat
  orig : Option Nat
  pct : Option Int
  deriving Repr, DecidableEq

/-- Model of `compute_prices` (src/app.py lines 77-89).

* `sale = min(amounts)` when any amount matched;
* `orig = max(amounts)` when at least two amounts matched, demoted to
  `None` when it equals `sale`;
* `pct`: the explicit `N% OFF` capture when present, otherwise
  `max(0, int(math.floor((1 - sale / orig) * 100)))` guarded by the
  Python truthiness test `orig and sale` (both non-`None` AND
  non-zero); the float expression is evaluated in IEEE-754 binary64
  arithmetic by `floorPct64`. -/
def compute_prices (t : String) : PriceInfo :=
  let amounts := parse_jpy_amounts t
  let sale := amounts.min?
  let orig : Option Nat :=
    if 2 ≤ amounts.length then
      match amounts.max?, amounts.min? with
      | some o, some s => if o == s then none else some o
      | _, _ => none
    else none
  let pct : Option Int :=
    match pctSearch t with
    | some n => some (n : Int)
    | none =>
      match orig, sale with
      | some o, some s =>
        if o ≠ 0 ∧ s ≠ 0 then some (max 0 (floorPct64 s o)) else none
      | _, _ => none
  ⟨sale, orig, pct⟩

/-! ## Bracket and noise-token stripping

`BRACKETS_PAT = re.compile(r"(\[.*?\]|【.*?】|（.*?）|\(.*?\))")` and
`NOISE_TOKENS_RE` (src/app.py lines 53-54), used by
`strip_brackets_for_slack` (lines 59-61). -/

/-- Closing bracket matching an opening bracket of `BRACKETS_PAT`. -/
def closeFor (c : Char) : Option Char :=
  if c == '[' then some ']'
  else if c == '【' then some '】'
  else if c == '（' then some '）'
  else if c == '(' then some ')'
  else none

/-- Model of `BRACKETS_PAT.sub("", s)`: at each position, a lazy
bracket group reaches to the nearest closing bracket of the same kind,
and `.` cannot cross a newline; an unclosed bracket is left in place. -/
def bracketsSubAux : Nat → List Char → List Char
  | 0, l => l
  | _, [] => []
  | fuel + 1, c :: rest =>
    match closeFor c with
    | some cl =>
      match rest.findIdx? (fun x => x == cl || x == '\n') with
      | some i =>
        match rest.drop i with
        | x :: after =>
          if x == cl then bracketsSubAux fuel after
          else c :: bracketsSubAux fuel rest
        | [] => c :: bracketsSubAux fuel rest
      | none => c :: bracketsSubAux fuel rest
    | none => c :: bracketsSubAux fuel rest

/-- String-level `BRACKETS_PAT.sub("", s)`. -/
def bracketsSub (l : List Char) : List Char := bracketsSubAux l.length l

/-- The alternatives of `NOISE_TOKENS_RE`, in the alternation order of
the source pattern (the regex engine tries them left to right). -/
def noiseTokens : List (List Char) :=
  ["TooltipBtn", "クーポン発行", "クーポン", "ショップ券", "送料無料",
   "即日", "OFF", "％", "%", "レビュー", "ポイント", "GIFT付", "公式",
   "セット", "選べる", "個", "本", "枚", "ml", "g"].map String.data

/-- First noise token (in alternation order) matching case-insensitively
at the head of `s`; returns its length. -/
def noiseTokAt (s : List Char) : Option Nat :=
  (noiseTokens.find? (fun tok =>
    (lowerL (s.take tok.length) == lowerL tok) &&
      (s.take tok.length).length == tok.length)).map List.length

/-- Model of `NOISE_TOKENS_RE.sub(" ", s)`: each match (a noise token
plus the maximal following whitespace run) is replaced by one space. -/
def noiseSubAux : Nat → List Char → List Char
  | 0, l => l
  | _, [] => []
  | fuel + 1, c :: rest =>
    match noiseTokAt (c :: rest) with
    | some k => ' ' :: noiseSubAux fuel (((c :: rest).drop k).dropWhile pyWs)
    | none => c :: noiseSubAux fuel rest

/-- String-level `NOISE_TOKENS_RE.sub(" ", s)`. -/
def noiseSub (l : List Char) : List Char := noiseSubAux l.length l

/-- Model of `strip_brackets_for_slack` (src/app.py lines 59-61). -/
def strip_brackets_for_slack (l : List Char) : List Char :=
  clean_text (noiseSub (clean_text (bracketsSub l)))

/-- Japanese character class `JP_CHAR_RE` (src/app.py line 55). -/
def isJpChar (c : Char) : Bool :=
  let n := c.toNat
  (0x4E00 ≤ n && n ≤ 0x9FAF) || (0x3041 ≤ n && n ≤ 0x3094) ||
  (0x30A1 ≤ n && n ≤ 0x30F4) || n == 0x30FC || n == 0x3005 ||
  n == 0x3006 || n == 0x30F5 || n == 0x30F6 ||
  (0xFF66 ≤ n && n ≤ 0xFF9F)

/-- Shop-like substrings that disqualify a title (src/app.py line 66). -/
def badTitleSubs : List (List Char) :=
  ["wish", "shop", "ショップ", "store", "公式", "qoo10", "ストア"].map String.data

/-- Model of `score_title` (src/app.py lines 63-69). -/
def score_title (s : List Char) : Int :=
  if s.isEmpty then -1
  else if badTitleSubs.any (fun t => containsSub (lowerL s) t) then -1
  else
    let s2 := strip_brackets_for_slack s
    3 * (s2.countP (fun c => isJpChar c) : Int) + (s2.length : Int)

/-- Character class of `ROMAN_HEAD_RE = ^([A-Za-z0-9&.\-+/]+)`
(src/app.py line 56). -/
def romanHeadChar (c : Char) : Bool :=
  let n := c.toNat
  (65 ≤ n && n ≤ 90) || (97 ≤ n && n ≤ 122) || (48 ≤ n && n ≤ 57) ||
  n == 38 || n == 46 || n == 45 || n == 43 || n == 47

/-- Character class of `KATAKANA_HEAD_RE = ^([ァ-ヴーｦ-ﾟ]+)`
(src/app.py line 57). -/
def katakanaHeadChar (c : Char) : Bool :=
  let n := c.toNat
  (0x30A1 ≤ n && n ≤ 0x30F4) || n == 0x30FC || (0xFF66 ≤ n && n ≤ 0xFF9F)

/-- Anchored match of a head regex: the maximal nonempty leading run of
the class. -/
def headMatch (cls : Char → Bool) (s : List Char) : Option (List Char) :=
  let h := s.takeWhile cls
  if h.isEmpty then none else some h

/-- Substrings that disqualify a brand or mark a row as an ad
(src/app.py lines 115 and 171). -/
def adNoiseSubs : List (List Char) :=
  ["wish", "shop", "ショップ", "store", "公式", "qoo10", "ストア",
   "楽天", "amazon"].map String.data

/-- Model of `_brand_ok` (src/app.py lines 113-117). -/
def brand_ok (b : List Char) : Bool :=
  if adNoiseSubs.any (fun t => containsSub (lowerL b) t) then false
  else if ["%", "OFF", "円"].any (fun t => containsSub b t.data) then false
  else true

/-- The `/(ad|adclick|event|shop)/` search of `is_ad_or_noise`: since
only existence matters, it is equivalent to containing one of the four
delimited substrings. -/
def adUrlHit (u : List Char) : Bool :=
  containsSub u "/ad/".data || containsSub u "/adclick/".data ||
  containsSub u "/event/".data || containsSub u "/shop/".data

/-- Model of `is_ad_or_noise` (src/app.py lines 168-173). -/
def is_ad_or_noise (name url code : List Char) : Bool :=
  if name.isEmpty then true
  else if adNoiseSubs.any (fun t => containsSub (lowerL name) t) then true
  else if code.isEmpty && adUrlHit (lowerL url) then true
  else false

/-! ## extract_goods_code (src/app.py lines 99-106)

Three patterns tried in order, short-circuiting on first success. -/

/-- The alternatives of `goods?_?code|goodsno` in backtracking order
(greedy optional `s`, then greedy optional `_`). -/
def goodsKeys : List (List Char) :=
  ["goods_code", "goodscode", "good_code", "goodcode", "goodsno"].map String.data

/-- Digits following `<key>=` for the first key alternative that yields
at least one digit (the alternation backtracks when `\d+` fails). -/
def goodsKeyDigits (rest : List Char) : List (List Char) → Option (List Char)
  | [] => none
  | k :: more =>
    if (lowerL (rest.take k.length) == k) && (rest.take k.length).length == k.length then
      match rest.drop k.length with
      | '=' :: r =>
        let ds := r.takeWhile isDigitN
        if ds.isEmpty then goodsKeyDigits rest more else some ds
      | _ => goodsKeyDigits rest more
    else goodsKeyDigits rest more

/-- Match of `[?&](?:goods?_?code|goodsno)=(\d+)` (case-insensitive)
starting at the head of `s`. -/
def m1At (s : List Char) : Option (List Char) :=
  match s with
  | c :: rest =>
    if c == '?' || c == '&' then goodsKeyDigits rest goodsKeys else none
  | _ => none

/-- Delimiter check `(?:[/?#]|$)` after the digit group of the second
pattern. -/
def m2Delim : List Char → Bool
  | [] => true
  | c :: _ => c == '/' || c == '?' || c == '#'

/-- Maximal digit run followed by a delimiter or the end of input. -/
def m2DigitsAt (l : List Char) : Option (List Char) :=
  let ds := l.takeWhile isDigitN
  if ds.isEmpty then none
  else if m2Delim (l.dropWhile isDigitN) then some ds else none

/-- The lazy optional group `(?:.*?/)?` of the second pattern: the
slashes after the current position are tried in ascending distance
(`.` cannot cross a newline); for each, the digit group must follow. -/
def m2GroupScan : Nat → List Char → Option (List Char)
  | 0, _ => none
  | _, [] => none
  | fuel + 1, c :: rest =>
    if c == '\n' then none
    else if c == '/' then
      match m2DigitsAt rest with
      | some ds => some ds
      | none => m2GroupScan fuel rest
    else m2GroupScan fuel rest

/-- Match of `/(?:Item|item|goods)/(?:.*?/)?(\d+)(?:[/?#]|$)` starting
at the head of `s`: the group alternatives (ascending, lazy) are tried
before the group-absent alternative. -/
def m2At (s : List Char) : Option (List Char) :=
  match s with
  | '/' :: rest =>
    let afterHead : Option (List Char) :=
      if "Item/".data.isPrefixOf rest then some (rest.drop 5)
      else if "item/".data.isPrefixOf rest then some (rest.drop 5)
      else if "goods/".data.isPrefixOf rest then some (rest.drop 6)
      else none
    match afterHead with
    | some q =>
      match m2GroupScan q.length q with
      | some ds => some ds
      | none => m2DigitsAt q
    | none => none
  | _ => none

/-- Match of `商品番号\s*[:：]\s*(\d+)` starting at the head of `s`. -/
def m3At (s : List Char) : Option (List Char) :=
  if "商品番号".data.isPrefixOf s then
    match (s.drop 4).dropWhile pyWs with
    | c :: r2 =>
      if c == ':' || c == '：' then
        let ds := (r2.dropWhile pyWs).takeWhile isDigitN
        if ds.isEmpty then none else some ds
      else none
    | [] => none
  else none

/-- Leftmost-match driver for the three goods-code patterns. -/
def searchAux (pat : List Char → Option (List Char)) :
    Nat → List Char → Option (List Char)
  | 0, _ => none
  | _, [] => none
  | fuel + 1, c :: rest =>
    match pat (c :: rest) with
    | some r => some r
    | none => searchAux pat fuel rest

/-- Leftmost match of a position-anchored pattern in a string. -/
def reSearch (pat : List Char → Option (List Char)) (l : List Char) :
    Option (List Char) :=
  searchAux pat l.length l

/-- Model of `extract_goods_code` (src/app.py lines 99-106). -/
def extract_goods_code (url block : String) : String :=
  if url = "" then ""
  else
    match reSearch m1At url.data with
    | some ds => String.mk ds
    | none =>
      match reSearch m2At url.data with
      | some ds => String.mk ds
      | none =>
        match reSearch m3At block.data with
        | some ds => String.mk ds
        | none => ""

/-- Model of `normalize_href` (src/app.py lines 108-111). -/
def normalize_href (href : String) : String :=
  if href.data.take 2 = ['/', '/'] then "https:" ++ href
  else if href.data.take 1 = ['/'] then "https://www.qoo10.jp" ++ href
  else href

/-! ## The urllib.parse fragment used by norm_url

Model of `urlparse`, `parse_qsl`, `urlencode`, `urlunparse` as used by
`_norm_url` (src/app.py lines 402-413). Percent-escapes go through
UTF-8 bytes as in CPython (`errors="replace"` approximated by emitting
one replacement character per malformed byte; no input of this program
exercises malformed escapes). -/

/-- UTF-8 encoding of one character. -/
def utf8EncodeChar (c : Char) : List Nat :=
  let n := c.toNat
  if n < 0x80 then [n]
  else if n < 0x800 then [0xC0 + n / 0x40, 0x80 + n % 0x40]
  else if n < 0x10000 then
    [0xE0 + n / 0x1000, 0x80 + (n / 0x40) % 0x40, 0x80 + n % 0x40]
  else
    [0xF0 + n / 0x40000, 0x80 + (n / 0x1000) % 0x40,
     0x80 + (n / 0x40) % 0x40, 0x80 + n % 0x40]

/-- UTF-8 continuation byte test. -/
def isCont (b : Nat) : Bool := 0x80 ≤ b && b ≤ 0xBF

/-- The Unicode replacement character. -/
def replChar : Char := Char.ofNat 0xFFFD

/-- Valid scalar-value guard for a decoded code point. -/
def mkScalar (n : Nat) : Char :=
  if n < 0xD800 || (0xE000 ≤ n && n < 0x110000) then Char.ofNat n else replChar

/-- UTF-8 decoding of a byte run (replacement character on malformed
input), fuel-driven (each step consumes at least one byte, so fuel equal
to the byte count never runs out). -/
def utf8DecodeAux : Nat → List Nat → List Char
  | 0, _ => []
  | _, [] => []
  | fuel + 1, b :: rest =>
    if b < 0x80 then Char.ofNat b :: utf8DecodeAux fuel rest
    else if 0xC2 ≤ b && b ≤ 0xDF then
      match rest with
      | b2 :: r2 =>
        if isCont b2 then
          mkScalar ((b - 0xC0) * 0x40 + (b2 - 0x80)) :: utf8DecodeAux fuel r2
        else replChar :: utf8DecodeAux fuel rest
      | [] => [replChar]
    else if 0xE0 ≤ b && b ≤ 0xEF then
      match rest with
      | b2 :: b3 :: r3 =>
        if isCont b2 && isCont b3 then
          mkScalar ((b - 0xE0) * 0x1000 + (b2 - 0x80) * 0x40 + (b3 - 0x80)) ::
            utf8DecodeAux fuel r3
        else replChar :: utf8DecodeAux fuel rest
      | _ => [replChar]
    else if 0xF0 ≤ b && b ≤ 0xF4 then
      match rest with
      | b2 :: b3 :: b4 :: r4 =>
        if isCont b2 && isCont b3 && isCont b4 then
          mkScalar ((b - 0xF0) * 0x40000 + (b2 - 0x80) * 0x1000 +
            (b3 - 0x80) * 0x40 + (b4 - 0x80)) :: utf8DecodeAux fuel r4
        else replChar :: utf8DecodeAux fuel rest
      | _ => [replChar]
    else replChar :: utf8DecodeAux fuel rest

/-- UTF-8 decoding of a byte run. -/
def utf8Decode (bs : List Nat) : List Char := utf8DecodeAux bs.length bs

/-- Value of one hexadecimal digit character. -/
def hexVal (c : Char) : Option Nat :=
  let n := c.toNat
  if 48 ≤ n ∧ n ≤ 57 then some (n - 48)
  else if 97 ≤ n ∧ n ≤ 102 then some (n - 87)
  else if 65 ≤ n ∧ n ≤ 70 then some (n - 55)
  else none

/-- Maximal run of `%hh` escape groups and the remaining input. -/
def pctRun : List Char → List Nat × List Char
  | '%' :: h1 :: h2 :: rest =>
    match hexVal h1, hexVal h2 with
    | some a, some b =>
      let (bs, r) := pctRun rest
      ((16 * a + b) :: bs, r)
    | _, _ => ([], '%' :: h1 :: h2 :: rest)
  | l => ([], l)

/-- Model of `urllib.parse.unquote`: maximal `%hh` runs are decoded as
UTF-8 byte sequences; a `%` not starting a valid escape stays literal. -/
def unquoteAux : Nat → List Char → List Char
  | 0, l => l
  | _, [] => []
  | fuel + 1, c :: t =>
    if c == '%' then
      match pctRun (c :: t) with
      | ([], _) => c :: unquoteAux fuel t
      | (bs, r) => utf8Decode bs ++ unquoteAux fuel r
    else c :: unquoteAux fuel t

/-- String-level `unquote`. -/
def pyUnquote (l : List Char) : List Char := unquoteAux l.length l

/-- The `.replace("+", " ")` followed by `unquote` that `parse_qsl`
applies to each name and value. -/
def unquotePlusL (l : List Char) : List Char :=
  pyUnquote (l.map (fun c => if c == '+' then ' ' else c))

/-- Bytes that `quote` never escapes (`ALWAYS_SAFE`): ASCII letters,
digits, `_.-~`. -/
def alwaysSafeByte (b : Nat) : Bool :=
  (65 ≤ b && b ≤ 90) || (97 ≤ b && b ≤ 122) || (48 ≤ b && b ≤ 57) ||
  b == 95 || b == 46 || b == 45 || b == 126

/-- Upper-case hexadecimal digit. -/
def hexDigitU (n : Nat) : Char :=
  if n < 10 then Char.ofNat (48 + n) else Char.ofNat (55 + n)

/-- Percent-escape of one byte. -/
def pctEsc (b : Nat) : List Char := ['%', hexDigitU (b / 16), hexDigitU (b % 16)]

/-- Quoting of one character through its UTF-8 bytes (`spaceSafe` is the
`safe=" "` used by `quote_plus` when the string contains a space). -/
def quoteChar (spaceSafe : Bool) (c : Char) : List Char :=
  (utf8EncodeChar c).foldr
    (fun b acc =>
      (if alwaysSafeByte b || (spaceSafe && b == 32) then [Char.ofNat b]
       else pctEsc b) ++ acc) []

/-- Model of `urllib.parse.quote_plus` with `safe=""` (as `urlencode`
calls it): spaces become `+`, everything else unsafe becomes `%XX`. -/
def quotePlusL (l : List Char) : List Char :=
  if l.any (fun c => c == ' ') then
    (l.foldr (fun c acc => quoteChar true c ++ acc) []).map
      (fun c => if c == ' ' then '+' else c)
  else l.foldr (fun c acc => quoteChar false c ++ acc) []

/-- Split on a separator character (Python `str.split(sep)`). -/
def splitOnChar (sep : Char) : List Char → List (List Char)
  | [] => [[]]
  | c :: rest =>
    match splitOnChar sep rest with
    | [] => if c == sep then [[], []] else [[c]]
    | h :: t => if c == sep then [] :: h :: t else (c :: h) :: t

/-- One `name=value` field of `parse_qsl`: the name runs to the first
`=`; a field without `=` or with an empty value is dropped. -/
def qslField (f : List Char) (acc : List (List Char × List Char)) :
    List (List Char × List Char) :=
  if f.isEmpty then acc
  else
    let name := f.takeWhile (fun c => c.toNat != 61)
    let rest := f.dropWhile (fun c => c.toNat != 61)
    if rest.isEmpty then acc
    else
      let value := rest.tail
      if value.isEmpty then acc
      else (unquotePlusL name, unquotePlusL value) :: acc

/-- Model of `urllib.parse.parse_qsl` with default arguments. -/
def parseQsl (qs : List Char) : List (List Char × List Char) :=
  (splitOnChar '&' qs).foldr qslField []

/-- Model of `urllib.parse.urlencode` with default arguments
(`"&".join` of the quoted `k=v` fields). -/
def urlencodeL : List (List Char × List Char) → List Char
  | [] => []
  | [kv] => quotePlusL kv.1 ++ '=' :: quotePlusL kv.2
  | kv :: rest => quotePlusL kv.1 ++ '=' :: quotePlusL kv.2 ++ '&' :: urlencodeL rest

/-- The six components of `urlparse`. -/
structure UrlParts where
  scheme : List Char
  netloc : List Char
  path : List Char
  params : List Char
  query : List Char
  fragment : List Char
  deriving Repr, DecidableEq

/-- ASCII letter test. -/
def isAsciiAlpha (c : Char) : Bool :=
  (65 ≤ c.toNat && c.toNat ≤ 90) || (97 ≤ c.toNat && c.toNat ≤ 122)

/-- Characters allowed in a URL scheme. -/
def schemeChar (c : Char) : Bool :=
  isAsciiAlpha c || isDigitN c || c.toNat == 43 || c.toNat == 45 || c.toNat == 46

/-- Scheme split of `urlsplit`: the text before the first `:` is a
scheme when it is nonempty, starts with an ASCII letter and consists of
scheme characters; the scheme is lower-cased. -/
def splitScheme (u : List Char) : List Char × List Char :=
  let pre := u.takeWhile (fun c => c.toNat != 58)
  if pre.length < u.length && 0 < pre.length &&
      isAsciiAlpha (pre.headD ' ') && pre.all schemeChar then
    (lowerL pre, u.drop (pre.length + 1))
  else ([], u)

/-- Netloc split of `urlsplit`: after a leading `//`, the netloc runs to
the next `/`, `?` or `#`; mismatched square brackets raise (modelled as
`none`, the `except` branch of `_norm_url`). -/
def splitNetloc (u : List Char) : Option (List Char × List Char) :=
  if u.take 2 = ['/', '/'] then
    let net := (u.drop 2).takeWhile
      (fun c => c.toNat != 47 && c.toNat != 63 && c.toNat != 35)
    let rest := (u.drop 2).dropWhile
      (fun c => c.toNat != 47 && c.toNat != 63 && c.toNat != 35)
    if (net.any (fun c => c == '[')) != (net.any (fun c => c == ']')) then none
    else some (net, rest)
  else some ([], u)

/-- Fragment split: everything after the first `#`. -/
def splitHash (u : List Char) : List Char × List Char :=
  match u.span (fun c => c.toNat != 35) with
  | (before, _ :: frag) => (before, frag)
  | (before, []) => (before, [])

/-- Query split: everything after the first `?` (the fragment having
been removed first). -/
def splitQmark (u : List Char) : List Char × List Char :=
  match u.span (fun c => c.toNat != 63) with
  | (before, _ :: qry) => (before, qry)
  | (before, []) => (before, [])

/-- Params split of `urlparse` (`_splitparams`): when the path contains
a `;`, the params are the text after the first `;` of the last path
segment (after the first `;` of the whole path when there is no `/`). -/
def splitParams (u : List Char) : List Char × List Char :=
  if !(u.any (fun c => c == ';')) then (u, [])
  else if u.any (fun c => c == '/') then
    let lastSeg := (u.reverse.takeWhile (fun c => c.toNat != 47)).reverse
    let pre := u.take (u.length - lastSeg.length)
    match lastSeg.span (fun c => c.toNat != 59) with
    | (b, _ :: params) => (pre ++ b, params)
    | (_, []) => (u, [])
  else
    match u.span (fun c => c.toNat != 59) with
    | (b, _ :: params) => (b, params)
    | (_, []) => (u, [])

/-- Schemes of `urllib.parse.uses_params` (those for which `urlparse`
separates params). -/
def usesParams : List (List Char) :=
  ["", "ftp", "hdl", "prospero", "http", "imap", "https", "shttp",
   "rtsp", "rtsps", "rtspu", "sip", "sips", "mms", "sftp", "tel"].map String.data

/-- Model of `urllib.parse.urlparse`: `none` is the `ValueError` of the
bracket check, caught by the `except` of `_norm_url`. -/
def urlparseL (u : List Char) : Option UrlParts :=
  let s := splitScheme u
  match splitNetloc s.2 with
  | none => none
  | some nr =>
    let hf := splitHash nr.2
    let qp := splitQmark hf.1
    let pp := if usesParams.contains s.1 then splitParams qp.1 else (qp.1, [])
    some ⟨s.1, nr.1, pp.1, pp.2, qp.2, hf.2⟩

/-- Model of `urllib.parse.urlunparse` (via `urlunsplit`). -/
def urlunparseL (p : UrlParts) : List Char :=
  let url0 := if p.params.isEmpty then p.path else p.path ++ ';' :: p.params
  let url1 :=
    if !p.netloc.isEmpty || url0.take 2 = ['/', '/'] then
      ['/', '/'] ++ p.netloc ++
        (if !url0.isEmpty && url0.take 1 ≠ ['/'] then '/' :: url0 else url0)
    else url0
  let url2 := if !p.scheme.isEmpty then p.scheme ++ ':' :: url1 else url1
  let url3 := if !p.query.isEmpty then url2 ++ '?' :: p.query else url2
  if !p.fragment.isEmpty then url3 ++ '#' :: p.fragment else url3

/-- The tracking-parameter names stripped by `_norm_url` (src/app.py
line 409); membership in the Python `set` is case-sensitive. -/
def badParams : List (List Char) :=
  ["utm_source", "utm_medium", "utm_campaign", "utm_term", "utm_content",
   "cid", "g"].map String.data

/-- List-level body of `_norm_url` after the empty-string early
return. -/
def norm_url_l (u0 : List Char) : List Char :=
  let l0 := pyStrip u0
  let l1 := if l0.take 2 = ['/', '/'] then "https:".data ++ l0 else l0
  let l2 := if l1.take 1 = ['/'] then "https://www.qoo10.jp".data ++ l1 else l1
  match urlparseL l2 with
  | none => lowerL l2
  | some parts =>
    let q := parseQsl parts.query
    let kept := q.filter (fun kv => !(badParams.contains kv.1))
    lowerL (urlunparseL { parts with query := urlencodeL kept })

/-- Model of `_norm_url` (src/app.py lines 402-413). -/
def norm_url (u : String) : String :=
  if u = "" then "" else String.mk (norm_url_l u.data)

/-! ## Product-code normalization and the keyed snapshot index -/

/-- Unsigned part of a Python float literal: digits, optionally a dot
and fraction digits (at least one digit overall). -/
def parseUnsigned (l : List Char) : Option (List Char × List Char) :=
  let ip := l.takeWhile isDigitN
  match l.dropWhile isDigitN with
  | [] => if ip.isEmpty then none else some (ip, [])
  | '.' :: r2 =>
    let fp := r2.takeWhile isDigitN
    if (r2.dropWhile isDigitN).isEmpty && !(ip.isEmpty && fp.isEmpty) then
      some (ip, fp)
    else none
  | _ => none

/-- Parsed decimal float literal: sign, integer digits, fraction
digits. -/
structure PyFloat where
  neg : Bool
  ip : List Char
  fp : List Char
  deriving Repr, DecidableEq

/-- Model of `float(s)` on the decimal fragment this program feeds it
(optional surrounding whitespace, optional sign, digits with an optional
fraction; exponent, `inf` and `nan` spellings are outside the modelled
fragment, and decimal values are kept exact rather than rounded to
binary). `none` models the `ValueError` caught by
`_norm_product_code`. -/
def parsePyFloat (s : List Char) : Option PyFloat :=
  match pyStrip s with
  | '+' :: r => (parseUnsigned r).map (fun x => ⟨false, x.1, x.2⟩)
  | '-' :: r => (parseUnsigned r).map (fun x => ⟨true, x.1, x.2⟩)
  | r => (parseUnsigned r).map (fun x => ⟨false, x.1, x.2⟩)

/-- Model of `_norm_product_code` (src/app.py lines 394-400): a missing
cell (pandas `NaN`, modelled as `none`) becomes `""`; a float-looking
string with integral value is renormalized to its plain integer string;
anything else is stripped. -/
def norm_product_code (v : Option String) : String :=
  match v with
  | none => ""
  | some s =>
    match parsePyFloat s.data with
    | some f =>
      if f.fp.all (fun c => c == '0') then
        if f.neg && digitsVal f.ip ≠ 0 then "-" ++ Nat.repr (digitsVal f.ip)
        else Nat.repr (digitsVal f.ip)
      else String.mk (pyStrip s.data)
    | none => String.mk (pyStrip s.data)

/-- One row of the tabular snapshot (`to_dataframe` output /
`pd.read_csv` input), restricted to the columns the key-normalization
and rank-delta logic reads. A `none` in `product_code` models a `NaN`
cell, a `none` in `rank` a missing/NaN rank. -/
structure Row where
  rank : Option Int
  product_code : Option String
  url : String
  product_name : String
  brand : String
  deriving Repr, DecidableEq

/-- Model of `keyify` (src/app.py lines 415-422): normalize the
`product_code` and `url` columns, key each row by the code when
nonempty, otherwise by the normalized URL, and set the key as the index.
`DataFrame.set_index` keeps every row, including duplicate and empty
keys, and so does the model. `none` models the `None` returned for an
empty input. -/
def keyify (df : List Row) : Option (List (String × Row)) :=
  match df with
  | [] => none
  | _ =>
    some (df.map (fun r =>
      let code := norm_product_code r.product_code
      let u := norm_url r.url
      ((if code ≠ "" then code else u),
        { r with product_code := some code, url := u })))

/-! ## build_sections: movement markers and the falling section
(src/app.py lines 425-483) -/

/-- Model of the top-10 movement marker (src/app.py lines 450-451):
`d = previous_rank - current_rank`; `(↑d) ` when `d > 0`, `(↓|d|) ` when
`d < 0`, empty when unchanged. -/
def markerOf (pr cr : Int) : String :=
  let d := pr - cr
  if 0 < d then "(↑" ++ toString d ++ ") "
  else if d < 0 then "(↓" ++ toString d.natAbs ++ ") "
  else ""

/-- Model of `plain_name` (src/app.py lines 428-432): bracket groups
and noise tokens stripped from the display name, the brand prepended
when the name does not already start with it (case-insensitively). -/
def plain_name (r : Row) : List Char :=
  let nm := strip_brackets_for_slack (clean_text r.product_name.data)
  let br := clean_text r.brand.data
  if !br.isEmpty && !((lowerL br).isPrefixOf (lowerL nm)) then br ++ ' ' :: nm
  else nm

/-- Window restriction `df[df["rank"] <= n]` (a NaN rank compares
false, hence is excluded). -/
def rankLe (n : Int) (r : Row) : Bool :=
  match r.rank with
  | some v => decide (v ≤ n)
  | none => false

/-- First row of the keyed index under the given key (`DataFrame.loc`
on a unique index; the theorems that depend on it assume key
uniqueness). -/
def lookupRow (idx : List (String × Row)) (k : String) : Option Row :=
  (idx.find? (fun kr => kr.1 == k)).map (fun kr => kr.2)

/-- Today's comparison window `t30` (src/app.py line 459). -/
def t30Of (dfT : List Row) : List (String × Row) :=
  ((keyify dfT).getD []).filter (fun kr => rankLe 30 kr.2)

/-- Yesterday's comparison window `p30` (src/app.py line 459). -/
def p30Of (dfP : List Row) : List (String × Row) :=
  ((keyify dfP).getD []).filter (fun kr => rankLe 30 kr.2)

/-- The keys of `set(t30.index) & set(p30.index)` (src/app.py line
460); iteration over the Python set is modelled in first-appearance
order of today's window. -/
def commonKeysOf (dfT dfP : List Row) : List String :=
  (((t30Of dfT).map Prod.fst).eraseDups).filter
    (fun k => (lookupRow (p30Of dfP) k).isSome)

/-- The keys of `set(p30.index) - set(t30.index)` (src/app.py line
460), in first-appearance order of yesterday's window. -/
def outKeysOf (dfT dfP : List Row) : List String :=
  (((p30Of dfP).map Prod.fst).eraseDups).filter
    (fun k => (lookupRow (t30Of dfT) k).isNone)

/-- One entry of the `movers` list (src/app.py line 468): the drop
magnitude `cr - pr`, both ranks, the key, and the tie-breaking name
(the fourth tuple component, the rendered text line, is presentation
and carries no additional data). -/
structure Mover where
  drop : Int
  cr : Int
  pr : Int
  key : String
  name : List Char
  deriving Repr, DecidableEq

/-- The mover entry of one common key (src/app.py lines 464-468):
present exactly when `drop = cr - pr > 0`. -/
def moverEntry (nameF : Row → List Char) (t30 p30 : List (String × Row))
    (k : String) : Option Mover :=
  match lookupRow p30 k, lookupRow t30 k with
  | some rp, some rt =>
    match rp.rank, rt.rank with
    | some pr, some cr =>
      let d := cr - pr
      if 0 < d then some ⟨d, cr, pr, k, nameF rt⟩ else none
    | _, _ => none
  | _, _ => none

/-- The `movers` list (src/app.py lines 462-468), parametrized by the
tie-breaking name function so that the source behaviour
(`plain_name`) and the spec wording can be compared. -/
def moversOfW (nameF : Row → List Char) (dfT dfP : List Row) : List Mover :=
  (commonKeysOf dfT dfP).filterMap (moverEntry nameF (t30Of dfT) (p30Of dfP))

/-- The `movers` list with the source's tie-breaking name. -/
def moversOf (dfT dfP : List Row) : List Mover := moversOfW plain_name dfT dfP

/-- The sort key comparison of `movers.sort(key=lambda x: (-x[0], x[1],
x[2], x[4]))` (src/app.py line 469): ascending lexicographic order on
the tuple. -/
def moverLeB (x y : Mover) : Bool :=
  if x.drop ≠ y.drop then decide (y.drop < x.drop)
  else if x.cr ≠ y.cr then decide (x.cr < y.cr)
  else if x.pr ≠ y.pr then decide (x.pr < y.pr)
  else charsLe x.name y.name

/-- Comparison for `sorted(list(out), key=lambda k: int(p30.loc[k,
"rank"]))` (src/app.py line 475). -/
def outLeB (x y : String × Row) : Bool :=
  decide ((x.2.rank.getD 0) ≤ (y.2.rank.getD 0))

/-- `MAX_FALLING = 5` (src/app.py line 36). -/
def MAX_FALLING : Nat := 5

/-- The falling-section selection loop (src/app.py lines 471-473):
append mover keys until the cap is reached. -/
def chooseLoop (cap : Nat) : List Mover → List String → List String
  | [], acc => acc
  | m :: ms, acc =>
    if cap ≤ acc.length then acc else chooseLoop cap ms (acc ++ [m.key])

/-- The backfill loop over dropped entries (src/app.py lines 476-479). -/
def backfillLoop (cap : Nat) : List (String × Row) → List String → List String
  | [], acc => acc
  | p :: ps, acc =>
    if cap ≤ acc.length then acc else backfillLoop cap ps (acc ++ [p.1])

/-- The dropped entries paired with their previous-window rows, in
first-appearance order of yesterday's window (the Python `set` order is
unspecified; ties of equal previous rank keep this order under the
stable sort). -/
def outPairsOf (dfT dfP : List Row) : List (String × Row) :=
  (outKeysOf dfT dfP).filterMap (fun k =>
    (lookupRow (p30Of dfP) k).map (fun r => (k, r)))

/-- The keys of the falling section, in emitted order (src/app.py lines
462-480), parametrized by the tie-breaking name function. Python's
`list.sort`/`sorted` are stable; they are modelled by the stable
`List.insertionSort`. -/
def fallingKeysWith (nameF : Row → List Char) (dfT dfP : List Row) : List String :=
  let sortedMovers :=
    List.insertionSort (fun a b => moverLeB a b = true) (moversOfW nameF dfT dfP)
  let chosen := chooseLoop MAX_FALLING sortedMovers []
  if chosen.length < MAX_FALLING then
    let outsSorted :=
      List.insertionSort (fun a b => outLeB a b = true) (outPairsOf dfT dfP)
    backfillLoop MAX_FALLING outsSorted chosen
  else chosen

/-- The falling-section keys as the source computes them. -/
def fallingKeys (dfT dfP : List Row) : List String :=
  fallingKeysWith plain_name dfT dfP

/-- Modelled from the spec wording of claim C7: the comparison name is
"the display name with bracket/parenthesis groups removed and internal
whitespace collapsed" (no noise-token stripping, no brand prefix). -/
def comparisonNameSpec (r : Row) : List Char :=
  clean_text (bracketsSub r.product_name.data)

/-- The falling-section keys as claim C7's tie-break wording
prescribes. -/
def fallingKeysSpec (dfT dfP : List Row) : List String :=
  fallingKeysWith comparisonNameSpec dfT dfP

/-! ## The listing parse loops

`parse_mobile_html` (src/app.py lines 185-213) and the row loop of
`fetch_by_playwright` (lines 302-341). HTML/DOM extraction is the
scraping collaborator: a list item enters the model as the strings the
DOM queries would have produced (anchor `href`, the `get_text` block,
the selected title, the shop-area brand). -/

/-- The dedup key expression `code or href` (src/app.py lines 202 and
335). -/
def rawKey (code href : String) : String :=
  if code ≠ "" then code else href

/-- One `<li>` of the mobile ranking list, as seen after the DOM
queries: `href` is `none` when no product anchor matched (`if not a:
continue`); `name` is the `choose_product_title` result and `brand` the
`extract_brand_from_li` result (both DOM-driven selections). -/
structure RawLi where
  href : Option String
  block : String
  name : String
  brand : String
  deriving Repr, DecidableEq

/-- One product record (`Product` dataclass, src/app.py lines 92-96);
rank is always assigned as `len(items) + 1` here. -/
structure Product where
  rank : Nat
  brand : String
  title : String
  price : Option Nat
  discount_percent : Option Int
  url : String
  product_code : String
  deriving Repr, DecidableEq

/-- The loop body of `parse_mobile_html` (src/app.py lines 192-209):
skip items without an anchor, skip ads/noise, deduplicate on
`code or href` first-seen-wins, assign rank `len(items) + 1`, stop once
`MAX_RANK` items are collected. -/
def parseMobileAux (maxRank : Nat) :
    List RawLi → List String → List Product → List Product
  | [], _, items => items
  | li :: rest, seen, items =>
    match li.href with
    | none => parseMobileAux maxRank rest seen items
    | some h0 =>
      let href := normalize_href h0
      let block := cleanTextS li.block
      let code := extract_goods_code href block
      if is_ad_or_noise li.name.data href.data code.data then
        parseMobileAux maxRank rest seen items
      else
        let key := rawKey code href
        if seen.contains key then parseMobileAux maxRank rest seen items
        else
          let pi := compute_prices block
          let prod : Product :=
            ⟨items.length + 1, li.brand, li.name, pi.sale, pi.pct, href, code⟩
          let items2 := items ++ [prod]
          if maxRank ≤ items2.length then items2
          else parseMobileAux maxRank rest (key :: seen) items2

/-- Model of `parse_mobile_html` on the extracted list items. -/
def parse_mobile_html (maxRank : Nat) (lis : List RawLi) : List Product :=
  parseMobileAux maxRank lis [] []

/-- The dedup key (`code or href`) a list item would produce in
`parse_mobile_html`, `none` when the item is skipped before the dedup
test (no anchor, or ad/noise). -/
def mobileKeyOf (li : RawLi) : Option String :=
  match li.href with
  | none => none
  | some h0 =>
    let href := normalize_href h0
    let code := extract_goods_code href (cleanTextS li.block)
    if is_ad_or_noise li.name.data href.data code.data then none
    else some (if code ≠ "" then code else href)

/-- One row handed back by the in-page JavaScript of
`fetch_by_playwright` (src/app.py lines 285-296): href, anchor text,
block text, and the brand that `extract_brand_from_li` extracts from
the saved `outerHTML` (DOM-driven, hence an input of the model). -/
structure RawRow where
  href : String
  name : String
  block : String
  brandHtml : String
  deriving Repr, DecidableEq

/-- Separator class of the desktop segment split (src/app.py line 322):
the raw-string class `[|•/▶▷›»·・\\-–—]+`, in which `\\-–` is the
code-point range from backslash (0x5C) to the en dash (0x2013) — so
every lowercase ASCII letter is a separator there, while a literal `-`
(0x2D) is not. -/
def desktopSepChar (c : Char) : Bool :=
  let n := c.toNat
  n == 124 || n == 0x2022 || n == 47 || n == 0x25B6 || n == 0x25B7 ||
  n == 0x203A || n == 0xBB || n == 0xB7 || n == 0x30FB ||
  (0x5C ≤ n && n ≤ 0x2013) || n == 0x2014

/-- Fuel-driven `re.split(class+, s)`: fields between maximal separator
runs (leading/trailing runs produce empty fields, as `re.split` does). -/
def splitRunsAux (isSep : Char → Bool) : Nat → List Char → List (List Char)
  | 0, l => [l]
  | fuel + 1, l =>
    let fld := l.takeWhile (fun c => !isSep c)
    match l.dropWhile (fun c => !isSep c) with
    | [] => [fld]
    | r => fld :: splitRunsAux isSep fuel (r.dropWhile isSep)

/-- Segment split of the desktop block text. -/
def splitSegs (l : List Char) : List (List Char) :=
  splitRunsAux desktopSepChar l.length l

/-- The title-head brand fallback (src/app.py lines 317-319 and
330-332): the roman head, then the katakana head, the first whose
capture passes `_brand_ok`. -/
def headBrand (s : List Char) : String :=
  match headMatch romanHeadChar s with
  | some m =>
    if brand_ok m then String.mk m
    else
      match headMatch katakanaHeadChar s with
      | some m2 => if brand_ok m2 then String.mk m2 else ""
      | none => ""
  | none =>
    match headMatch katakanaHeadChar s with
    | some m2 => if brand_ok m2 then String.mk m2 else ""
    | none => ""

/-- The best-scoring segment of the block (src/app.py lines 323-326):
first maximum of `score_title` over the raw segments, returned
cleaned. -/
def bestSeg (segs : List (List Char)) : List Char :=
  (segs.foldl
    (fun best s =>
      if score_title s > best.2 then (clean_text s, score_title s) else best)
    (([] : List Char), (-1 : Int))).1

/-- Name and brand after the desktop rescue step (src/app.py lines
310-332): brand from the item HTML, else from the title head; when the
stripped anchor title scores negative, the best block segment replaces
it (and the brand is retried on it). -/
def desktopNameBrand (row : RawRow) : List Char × String :=
  let block := clean_text row.block.data
  let name0 := strip_brackets_for_slack (clean_text row.name.data)
  let brand1 := if row.brandHtml = "" then headBrand name0 else row.brandHtml
  if score_title name0 < 0 then
    let best := bestSeg (splitSegs block)
    if !best.isEmpty then
      (best, if brand1 = "" then headBrand best else brand1)
    else (name0, brand1)
  else (name0, brand1)

/-- The Python-side loop of `fetch_by_playwright` (src/app.py lines
303-341): same ad/noise filter, first-seen dedup on `code or href`,
positional rank, and `MAX_RANK` cutoff as the mobile loop. -/
def desktopAux (maxRank : Nat) :
    List RawRow → List String → List Product → List Product
  | [], _, items => items
  | row :: rest, seen, items =>
    let href := normalize_href row.href
    let block := clean_text row.block.data
    let code := extract_goods_code href (String.mk block)
    let nb := desktopNameBrand row
    if is_ad_or_noise nb.1 href.data code.data then
      desktopAux maxRank rest seen items
    else
      let key := rawKey code href
      if seen.contains key then desktopAux maxRank rest seen items
      else
        let pi := compute_prices (String.mk block)
        let prod : Product :=
          ⟨items.length + 1, nb.2, String.mk nb.1, pi.sale, pi.pct, href, code⟩
        let items2 := items ++ [prod]
        if maxRank ≤ items2.length then items2
        else desktopAux maxRank rest (key :: seen) items2

/-- Model of the desktop item-building loop of `fetch_by_playwright`. -/
def desktop_items (maxRank : Nat) (rows : List RawRow) : List Product :=
  desktopAux maxRank rows [] []

/-- Default of `MAX_RANK = int(os.getenv("QOO10_MAX_RANK", "200"))`
(src/app.py line 35). -/
def MAX_RANK_default : Nat := 200

/-- The dedup key a parsed product carries (`code or href`,
src/app.py line 202). -/
def itemKey (p : Product) : String :=
  rawKey p.product_code p.url

/-- Sample list item for concrete instantiations. -/
def demoLi : RawLi := ⟨some "/item/11", "500円", "コスメ", "B"⟩

/-- Sample desktop row for concrete instantiations. -/
def demoRow : RawRow := ⟨"/item/12", "コスメツー", "600円", "B"⟩

/-! ## A well-formed URL fragment for the general normalization
theorems (claims C4 and C9)

The counterexamples to those claims are concrete; the amended general
statements are proved over the fragment of lowercase well-formed
https URLs below. -/

/-- Characters allowed in the host of the well-formed fragment:
lowercase letters, digits, dot, hyphen. -/
def hostChar (c : Char) : Bool :=
  let n := c.toNat
  (97 ≤ n && n ≤ 122) || (48 ≤ n && n ≤ 57) || n == 46 || n == 45

/-- Characters allowed in the path of the well-formed fragment: host
characters and the slash. -/
def pathChar (c : Char) : Bool := hostChar c || c.toNat == 47

/-- Characters allowed in query names and values of the well-formed
fragment: lowercase letters, digits, underscore. -/
def qChar (c : Char) : Bool :=
  let n := c.toNat
  (97 ≤ n && n ≤ 122) || (48 ≤ n && n ≤ 57) || n == 95

/-- Well-formed host: nonempty, all host characters. -/
def hostOkB (h : List Char) : Bool := !h.isEmpty && h.all hostChar

/-- Well-formed path. -/
def pathOkB (p : List Char) : Bool := p.all pathChar

/-- Well-formed query: nonempty names and values over `qChar`. -/
def qOkB (q : List (List Char × List Char)) : Bool :=
  q.all (fun kv =>
    !kv.1.isEmpty && !kv.2.isEmpty && kv.1.all qChar && kv.2.all qChar)

/-- Plain `k=v&...` rendering of a query (what `urlencode` produces
when nothing needs quoting). -/
def encQ : List (List Char × List Char) → List Char
  | [] => []
  | [kv] => kv.1 ++ '=' :: kv.2
  | kv :: rest => kv.1 ++ '=' :: kv.2 ++ '&' :: encQ rest

/-- A well-formed https URL with the given host, path and query. -/
def mkUrl (host path : List Char) (q : List (List Char × List Char)) :
    List Char :=
  'h' :: 't' :: 't' :: 'p' :: 's' :: ':' :: '/' :: '/' :: (host ++
    '/' :: (path ++ (if q.isEmpty then [] else '?' :: encQ q)))

/-- The character kinds that can occur in a well-formed URL. -/
def urlOutChar (c : Char) : Prop :=
  hostChar c = true ∨ qChar c = true ∨ c.toNat = 58 ∨ c.toNat = 47 ∨
    c.toNat = 63 ∨ c.toNat = 61 ∨ c.toNat = 38

/-- Sample snapshots for the C6 witness: the same entity ranked 5
yesterday and 20 today. -/
def c6dfT : List Row := [⟨some 20, some "11", "u", "X", ""⟩]

/-- Sample previous snapshot for the C6 witness. -/
def c6dfP : List Row := [⟨some 5, some "11", "u", "X", ""⟩]

/-- Today's window for the C7 counterexample: two entities tied at
current rank 7 whose names differ only by a noise token. -/
def c7dfT : List Row :=
  [⟨some 7, some "111", "", "A OFFB", ""⟩,
   ⟨some 7, some "222", "", "A C", ""⟩]

/-- Previous window for the C7 counterexample: both movers previously
rank 3 (drop 4 each), plus two dropped entities for the backfill. -/
def c7dfP : List Row :=
  [⟨some 3, some "111", "", "A OFFB", ""⟩,
   ⟨some 3, some "222", "", "A C", ""⟩,
   ⟨some 9, some "333", "", "gone", ""⟩,
   ⟨some 2, some "444", "", "away", ""⟩]

/-! ## Oracle checks: concrete evaluations matching the Python
implementation on sample inputs -/

example : String.mk (strip_brackets_for_slack "A OFFB".data) = "A B" := by decide

example : String.mk (strip_brackets_for_slack "【公式】リンクルショット メディカル セラム 20g".data)
    = "リンクルショット メディカル セラム 20" := by decide

example : String.mk (bracketsSub "[a[b]c]".data) = "c]" := by decide

example : String.mk (strip_brackets_for_slack "(x".data) = "(x" := by decide

example : String.mk (strip_brackets_for_slack "toolTIPBTN x".data) = "x" := by decide

example : score_title "リンクル N1".data = 19 := by decide

example : score_title "Qoo10 event".data = -1 := by decide

example : score_title [] = -1 := by decide

example : extract_goods_code "/item/123/456" "" = "456" := by decide

example : extract_goods_code "https://www.qoo10.jp/Item/abc/987?x=1" "" = "987" := by decide

example : extract_goods_code "x?GOODSNO=77" "" = "77" := by decide

example : extract_goods_code "x?goods_code=x9" "" = "" := by decide

example : extract_goods_code "x&good_code=42" "" = "42" := by decide

example : extract_goods_code "u" "ブランド 商品番号 ： 5566 より" = "5566" := by decide

example : extract_goods_code "/item/12a" "" = "" := by decide

example : is_ad_or_noise "ナイアシン美容液".data "https://x/item/1".data "1".data = false := by decide

example : is_ad_or_noise "QOO10 SHOP".data "".data "1".data = true := by decide

example : is_ad_or_noise "serum".data "https://x/EVENT/sale".data "".data = true := by decide

example : normalize_href "//cdn.x/y" = "https://cdn.x/y" := by decide

example : normalize_href "/gmkt.inc/a" = "https://www.qoo10.jp/gmkt.inc/a" := by decide

example : norm_url "https://x/?a=1&utm_source=y" = "https://x/?a=1" := by decide

example : norm_url "HTTPS://X/?a=1&utm_source=y" = "https://x/?a=1" := by decide

example : norm_url "https://x/?CID=1" = "https://x/?cid=1" := by decide

example : norm_url "https://x/?cid=1" = "https://x/" := by decide

example : norm_url "" = "" := by decide

example : norm_url "//cdn.x/p?g=2" = "https://cdn.x/p" := by decide

example : norm_url "/gmkt.inc/A?b=1" = "https://www.qoo10.jp/gmkt.inc/a?b=1" := by decide

example : norm_url "notaurl" = "notaurl" := by decide

example : norm_url "https://x/?a=b+c" = "https://x/?a=b+c" := by decide

example : norm_url "https://x/?a=%41" = "https://x/?a=a" := by decide

example : norm_url "https://x/?flag&a=1" = "https://x/?a=1" := by decide

example : norm_url "https://x/?a=" = "https://x/" := by decide

example : norm_url "https://x/p;y=2?a=1" = "https://x/p;y=2?a=1" := by decide

example : norm_url "  https://X/A  " = "https://x/a" := by decide

example : norm_url "https://x/?a=1&a=2" = "https://x/?a=1&a=2" := by decide

example : norm_url "https://x/?A=1" = "https://x/?a=1" := by decide

example : norm_url "https://x/?a=%2F" = "https://x/?a=%2f" := by decide

example : norm_url "https://x/?a=あ" = "https://x/?a=%e3%81%82" := by decide

example : norm_url "https://x#frag?a=1" = "https://x#frag?a=1" := by decide

example : norm_url "https://x/?g=2&goods_code=5" = "https://x/?goods_code=5" := by decide

example : norm_product_code (some "123.0") = "123" := by decide

example : norm_product_code (some "") = "" := by decide

example : norm_product_code (some "abc ") = "abc" := by decide

example : norm_product_code (some "0123") = "123" := by decide

example : norm_product_code (some " 12 ") = "12" := by decide

example : norm_product_code none = "" := by decide

example : markerOf 20 5 = "(↑15) " := by decide

example : markerOf 5 20 = "(↓15) " := by decide

example : markerOf 7 7 = "" := by decide

example : String.mk (plain_name ⟨some 1, none, "", "【公式】スキンケア セラム", "CNP"⟩)
    = "CNP スキンケア セラム" := by decide

example : parse_jpy_amounts "free shipping 0円, sale 980円" = [0, 980] := by decide

example : parse_jpy_amounts "1,000円 1,000円" = [1000, 1000] := by decide

example : parse_jpy_amounts "12,34円" = [34] := by decide

example : parse_jpy_amounts "¥500円" = [500] := by decide

example : parse_jpy_amounts "1,000,000円" = [1000000] := by decide

example : compute_prices "free shipping 0円, sale 980円" = ⟨some 0, some 980, none⟩ := by decide

example : compute_prices "750円 1,000円" = ⟨some 750, some 1000, some 25⟩ := by decide

example : compute_prices "751円 1,000円" = ⟨some 751, some 1000, some 24⟩ := by decide

example : compute_prices "1,000円 1,000円" = ⟨some 1000, none, none⟩ := by decide

example : compute_prices "3 % OFF" = ⟨none, none, some 3⟩ := by decide

example : pctSearch "12 3%OFF" = some 3 := by decide

/-! ## Helper lemmas -/

theorem compute_prices_sale (t : String) :
    (compute_prices t).sale = (parse_jpy_amounts t).min? := by
  simp [compute_prices]

theorem compute_prices_orig (t : String) :
    (compute_prices t).orig =
      (if 2 ≤ (parse_jpy_amounts t).length then
        match (parse_jpy_amounts t).max?, (parse_jpy_amounts t).min? with
        | some o, some s => if o == s then none else some o
        | _, _ => none
      else none) := by
  simp [compute_prices]

theorem compute_prices_pct (t : String) :
    (compute_prices t).pct =
      (match pctSearch t with
      | some n => some (n : Int)
      | none =>
        match (compute_prices t).orig, (compute_prices t).sale with
        | some o, some s =>
          if o ≠ 0 ∧ s ≠ 0 then some (max 0 (floorPct64 s o)) else none
        | _, _ => none) := by
  simp [compute_prices]

theorem min?_mem_nat {l : List Nat} {m : Nat} (h : l.min? = some m) :
    m ∈ l ∧ ∀ b ∈ l, m ≤ b :=
  List.min?_eq_some_iff'.mp h

theorem max?_mem_nat {l : List Nat} {m : Nat} (h : l.max? = some m) :
    m ∈ l ∧ ∀ b ∈ l, b ≤ m :=
  List.max?_eq_some_iff'.mp h

theorem exists_min?_of_ne_nil {l : List Nat} (h : l ≠ []) :
    ∃ m, l.min? = some m := by
  cases hm : l.min? with
  | none => exact absurd (List.min?_eq_none_iff.mp hm) h
  | some m => exact ⟨m, rfl⟩

theorem exists_max?_of_ne_nil {l : List Nat} (h : l ≠ []) :
    ∃ m, l.max? = some m := by
  cases hm : l.max? with
  | none => exact absurd (List.max?_eq_none_iff.mp hm) h
  | some m => exact ⟨m, rfl⟩

/-- The claim's formula `floor((1 - sale/orig) * 100)` read over exact
rationals equals an integer floor division — used to evaluate the
spec-side formula when comparing it against the program's binary64
result. -/
theorem fdiv_eq_spec_floor (s o : Nat) (ho : o ≠ 0) :
    Int.fdiv (100 * ((o : Int) - (s : Int))) (o : Int) =
      ⌊((1 : ℚ) - (s : ℚ) / (o : ℚ)) * 100⌋ := by
  have hoq : ((o : ℚ)) ≠ 0 := by exact_mod_cast ho
  have h1 : ((1 : ℚ) - (s : ℚ) / (o : ℚ)) * 100 =
      ((100 * ((o : Int) - (s : Int)) : Int) : ℚ) / ((o : Nat) : ℚ) := by
    field_simp
    ring
  rw [h1, Rat.floor_intCast_div_natCast]
  rw [Int.fdiv_eq_ediv _ (by positivity)]

/-! ## Claim C1 -/

/-- C1 counterexample: for the text of the claim, the extracted sale
price is 0, not 980 — the zero amount is not excluded before
selection. -/
theorem C1_counterexample :
    (compute_prices "free shipping 0円, sale 980円").sale = some 0 ∧
      (compute_prices "free shipping 0円, sale 980円").sale ≠ some 980 := by
  constructor
  · decide
  · decide

/-- C1 (amended): zero-valued amounts are NOT excluded before price
selection; the sale price is the minimum over all extracted amounts,
so any text whose amounts include 0 gets `salePrice = 0`. -/
theorem C1_zero_becomes_sale (t : String) (h : 0 ∈ parse_jpy_amounts t) :
    (compute_prices t).sale = some 0 := by
  rw [compute_prices_sale]
  have hne : parse_jpy_amounts t ≠ [] := by
    intro he
    rw [he] at h
    exact absurd h (List.not_mem_nil 0)
  obtain ⟨m, hm⟩ := exists_min?_of_ne_nil hne
  have hle : m ≤ 0 := (min?_mem_nat hm).2 0 h
  rw [hm]
  congr 1
  omega

/-- C1 witness. -/
theorem C1_zero_becomes_sale_witness :
    (compute_prices "free shipping 0円, sale 980円").sale = some 0 :=
  C1_zero_becomes_sale "free shipping 0円, sale 980円" (by decide)

/-! ## Claim C2 -/

/-- C2 counterexample: a row whose identifier and URL are both empty is
not excluded by `keyify`; it is indexed under the empty key. -/
theorem C2_counterexample :
    keyify [⟨some 1, some "", "", "n", "b"⟩] =
      some [("", ⟨some 1, some "", "", "n", "b"⟩)] := by
  decide

/-- C2 (amended): `keyify` never drops a record: for every nonempty
input it indexes exactly as many rows as it was given (unkeyable rows
included, under the empty-string key). -/
theorem C2_no_row_dropped (df : List Row) (h : df ≠ []) :
    ∃ l, keyify df = some l ∧ l.length = df.length := by
  match df, h with
  | r :: rest, _ =>
    refine ⟨_, rfl, ?_⟩
    simp [List.length_map]

/-- C2 witness. -/
theorem C2_no_row_dropped_witness :
    ∃ l, keyify [(⟨some 1, some "", "", "n", "b"⟩ : Row)] = some l ∧
      l.length = 1 :=
  C2_no_row_dropped [⟨some 1, some "", "", "n", "b"⟩] (by decide)

/-! ## Claim C5 -/

/-- C5 counterexample: two independent failures of the claim's rule
`discountPercent = max(0, floor((1 - sale/orig) * 100))`. (i) For
`"800円 1,000円"` the program computes 19 — in binary64, `800 / 1000`
rounds up to `0.8000000000000000444…`, `1 - 0.8` is
`0.19999999999999996…`, times 100 floors to 19 — while the claim's
formula over exact numbers gives 20. (ii) For `"0円 980円"` both
prices are present and the claim's rule gives 100, yet the Python
truthiness guard `orig and sale` makes the program return `None`. -/
theorem C5_counterexample :
    ((compute_prices "800円 1,000円").pct = some 19 ∧
      max 0 ⌊((1 : ℚ) - ((800 : Nat) : ℚ) / ((1000 : Nat) : ℚ)) * 100⌋ = 20) ∧
    compute_prices "0円 980円" = ⟨some 0, some 980, none⟩ ∧
      (compute_prices "0円 980円").pct ≠ some 100 := by
  refine ⟨⟨?_, ?_⟩, ?_, ?_⟩
  · decide
  · rw [← fdiv_eq_spec_floor 800 1000 (by decide)]
    decide
  · decide
  · decide

/-- C5 (amended): an explicit percent token always wins; otherwise the
computed discount needs both a sale and an original price that are
non-`None` AND nonzero (Python truthiness), in which case it is
`max 0 (floor((1 - sale/orig) * 100))` evaluated in IEEE-754 binary64
float arithmetic (`floorPct64`, which can undershoot the exact-rational
floor by one); in every other case it is `None`. -/
theorem C5_discount_policy (t : String) :
    (∀ n, pctSearch t = some n → (compute_prices t).pct = some (n : Int)) ∧
    (pctSearch t = none → ∀ s o, (compute_prices t).sale = some s →
      (compute_prices t).orig = some o → s ≠ 0 → o ≠ 0 →
      (compute_prices t).pct = some (max 0 (floorPct64 s o))) ∧
    (pctSearch t = none →
      ((compute_prices t).sale = none ∨ (compute_prices t).sale = some 0 ∨
        (compute_prices t).orig = none ∨ (compute_prices t).orig = some 0) →
      (compute_prices t).pct = none) := by
  refine ⟨?_, ?_, ?_⟩
  · intro n hn
    rw [compute_prices_pct, hn]
  · intro hn s o hs ho hs0 ho0
    rw [compute_prices_pct, hn, hs, ho]
    dsimp only
    rw [if_pos ⟨ho0, hs0⟩]
  · intro hn hcase
    rw [compute_prices_pct, hn]
    rcases hcase with h | h | h | h
    · rw [h]
      cases (compute_prices t).orig <;> rfl
    · rw [h]
      cases horig : (compute_prices t).orig with
      | none => rfl
      | some o =>
        dsimp only
        rw [if_neg]
        intro hco
        exact hco.2 rfl
    · rw [h]
    · rw [h]
      cases hsale : (compute_prices t).sale with
      | none => rfl
      | some s =>
        dsimp only
        rw [if_neg]
        intro hco
        exact hco.1 rfl

/-- C5 witness: the spec's two floor examples through the amended
theorem — the binary64 values are 25 and 24 as the spec displays — and
an explicit-percent example. -/
theorem C5_discount_policy_witness :
    ((compute_prices "750円 1,000円").pct = some (max 0 (floorPct64 750 1000)) ∧
        max 0 (floorPct64 750 1000) = 25) ∧
      ((compute_prices "751円 1,000円").pct = some (max 0 (floorPct64 751 1000)) ∧
        max 0 (floorPct64 751 1000) = 24) ∧
      (compute_prices "3 % OFF").pct = some 3 :=
  ⟨⟨(C5_discount_policy "750円 1,000円").2.1 (by decide) 750 1000 (by decide)
      (by decide) (by decide) (by decide), by decide⟩,
    ⟨(C5_discount_policy "751円 1,000円").2.1 (by decide) 751 1000 (by decide)
      (by decide) (by decide) (by decide), by decide⟩,
    (C5_discount_policy "3 % OFF").1 3 (by decide)⟩

/-! ## Claim C8 -/

/-- C8 (confirmed): `originalPrice` is present exactly when two
distinct amounts were extracted, and it is then the maximum amount (in
particular, a single repeated amount yields `originalPrice = None`). -/
theorem compute_prices_orig_none (t : String)
    (h : (parse_jpy_amounts t).length < 2) : (compute_prices t).orig = none := by
  rw [compute_prices_orig, if_neg (by omega)]

theorem compute_prices_orig_some (t : String) (M m : Nat)
    (hlen : 2 ≤ (parse_jpy_amounts t).length)
    (hM : (parse_jpy_amounts t).max? = some M)
    (hm : (parse_jpy_amounts t).min? = some m) :
    (compute_prices t).orig = if M = m then none else some M := by
  rw [compute_prices_orig, if_pos hlen, hM, hm]
  dsimp only
  by_cases h : M = m
  · rw [if_pos (by simp [h]), if_pos h]
  · rw [if_neg (by simp [h]), if_neg h]

theorem C8_two_distinct_amounts (t : String) :
    ((compute_prices t).orig ≠ none ↔
      ∃ a ∈ parse_jpy_amounts t, ∃ b ∈ parse_jpy_amounts t, a ≠ b) ∧
    (∀ o, (compute_prices t).orig = some o →
      (parse_jpy_amounts t).max? = some o) := by
  constructor
  · constructor
    · intro hne
      by_cases hlen : 2 ≤ (parse_jpy_amounts t).length
      · have hnil : parse_jpy_amounts t ≠ [] := by
          intro he
          rw [he] at hlen
          simp at hlen
        obtain ⟨M, hM⟩ := exists_max?_of_ne_nil hnil
        obtain ⟨m, hm⟩ := exists_min?_of_ne_nil hnil
        rw [compute_prices_orig_some t M m hlen hM hm] at hne
        by_cases hMm : M = m
        · rw [if_pos hMm] at hne
          exact absurd rfl hne
        · exact ⟨M, (max?_mem_nat hM).1, m, (min?_mem_nat hm).1, hMm⟩
      · exact absurd (compute_prices_orig_none t (by omega)) hne
    · rintro ⟨a, ha, b, hb, hab⟩
      have hlen : 2 ≤ (parse_jpy_amounts t).length := by
        match hl : parse_jpy_amounts t, ha, hb with
        | [], ha, _ => exact absurd ha (List.not_mem_nil a)
        | [x], ha, hb =>
          rw [List.mem_singleton] at ha hb
          exact absurd (ha.trans hb.symm) hab
        | x :: y :: rest, _, _ => simp
      have hnil : parse_jpy_amounts t ≠ [] := by
        intro he
        rw [he] at hlen
        simp at hlen
      obtain ⟨M, hM⟩ := exists_max?_of_ne_nil hnil
      obtain ⟨m, hm⟩ := exists_min?_of_ne_nil hnil
      rw [compute_prices_orig_some t M m hlen hM hm]
      have hMm : M ≠ m := by
        intro he
        have h1 : a ≤ M := (max?_mem_nat hM).2 a ha
        have h2 : m ≤ a := (min?_mem_nat hm).2 a ha
        have h3 : b ≤ M := (max?_mem_nat hM).2 b hb
        have h4 : m ≤ b := (min?_mem_nat hm).2 b hb
        omega
      rw [if_neg hMm]
      simp
  · intro o ho
    by_cases hlen : 2 ≤ (parse_jpy_amounts t).length
    · have hnil : parse_jpy_amounts t ≠ [] := by
        intro he
        rw [he] at hlen
        simp at hlen
      obtain ⟨M, hM⟩ := exists_max?_of_ne_nil hnil
      obtain ⟨m, hm⟩ := exists_min?_of_ne_nil hnil
      rw [compute_prices_orig_some t M m hlen hM hm] at ho
      by_cases hMm : M = m
      · rw [if_pos hMm] at ho
        exact absurd ho (by simp)
      · rw [if_neg hMm] at ho
        rw [hM, Option.some_inj.mp ho]
    · rw [compute_prices_orig_none t (by omega)] at ho
      exact absurd ho (by simp)

/-- C8 witness: a two-distinct-amount text has a maximal original
price; the theorem applied at `"750円 1,000円"`. -/
theorem C8_two_distinct_amounts_witness :
    (compute_prices "750円 1,000円").orig ≠ none ∧
      (parse_jpy_amounts "750円 1,000円").max? = some 1000 :=
  ⟨(C8_two_distinct_amounts "750円 1,000円").1.mpr
      ⟨750, by decide, 1000, by decide, by decide⟩,
    (C8_two_distinct_amounts "750円 1,000円").2 1000 (by decide)⟩

/-! ## Claim C10: rank assignment -/

theorem parseMobileAux_length (maxRank : Nat) :
    ∀ (lis : List RawLi) (seen : List String) (items : List Product),
      items.length < maxRank →
      (parseMobileAux maxRank lis seen items).length ≤ maxRank := by
  intro lis
  induction lis with
  | nil =>
    intro seen items h
    simpa [parseMobileAux] using Nat.le_of_lt h
  | cons li rest ih =>
    intro seen items h
    simp only [parseMobileAux]
    cases li.href with
    | none => exact ih seen items h
    | some h0 =>
      dsimp only
      split
      next => exact ih seen items h
      next =>
        split
        next => exact ih seen items h
        next =>
          split
          next hstop =>
            simp only [List.length_append, List.length_cons, List.length_nil]
            omega
          next hcont =>
            refine ih _ _ ?_
            simp only [List.length_append, List.length_cons,
              List.length_nil] at hcont ⊢
            omega

theorem parseMobileAux_ranks (maxRank : Nat) :
    ∀ (lis : List RawLi) (seen : List String) (items : List Product),
      items.map Product.rank = List.range' 1 items.length →
      (parseMobileAux maxRank lis seen items).map Product.rank =
        List.range' 1 (parseMobileAux maxRank lis seen items).length := by
  intro lis
  induction lis with
  | nil =>
    intro seen items h
    simpa [parseMobileAux] using h
  | cons li rest ih =>
    intro seen items h
    have hstep : ∀ (p : Product), p.rank = items.length + 1 →
        (items ++ [p]).map Product.rank =
          List.range' 1 (items ++ [p]).length := by
      intro p hp
      simp only [List.map_append, List.length_append, List.map_cons,
        List.map_nil, List.length_cons, List.length_nil, h, hp]
      rw [List.range'_1_concat]
      simp only [List.append_cancel_left_eq, List.cons.injEq, and_true]
      omega
    simp only [parseMobileAux]
    cases li.href with
    | none => exact ih seen items h
    | some h0 =>
      dsimp only
      split
      next => exact ih seen items h
      next =>
        split
        next => exact ih seen items h
        next =>
          split
          next => exact hstep _ rfl
          next => exact ih _ _ (hstep _ rfl)

theorem desktopAux_length (maxRank : Nat) :
    ∀ (rows : List RawRow) (seen : List String) (items : List Product),
      items.length < maxRank →
      (desktopAux maxRank rows seen items).length ≤ maxRank := by
  intro rows
  induction rows with
  | nil =>
    intro seen items h
    simpa [desktopAux] using Nat.le_of_lt h
  | cons row rest ih =>
    intro seen items h
    simp only [desktopAux]
    split
    next => exact ih seen items h
    next =>
      split
      next => exact ih seen items h
      next =>
        split
        next hstop =>
          simp only [List.length_append, List.length_cons, List.length_nil]
          omega
        next hcont =>
          refine ih _ _ ?_
          simp only [List.length_append, List.length_cons,
            List.length_nil] at hcont ⊢
          omega

theorem desktopAux_ranks (maxRank : Nat) :
    ∀ (rows : List RawRow) (seen : List String) (items : List Product),
      items.map Product.rank = List.range' 1 items.length →
      (desktopAux maxRank rows seen items).map Product.rank =
        List.range' 1 (desktopAux maxRank rows seen items).length := by
  intro rows
  induction rows with
  | nil =>
    intro seen items h
    simpa [desktopAux] using h
  | cons row rest ih =>
    intro seen items h
    have hstep : ∀ (p : Product), p.rank = items.length + 1 →
        (items ++ [p]).map Product.rank =
          List.range' 1 (items ++ [p]).length := by
      intro p hp
      simp only [List.map_append, List.length_append, List.map_cons,
        List.map_nil, List.length_cons, List.length_nil, h, hp]
      rw [List.range'_1_concat]
      simp only [List.append_cancel_left_eq, List.cons.injEq, and_true]
      omega
    simp only [desktopAux]
    split
    next => exact ih seen items h
    next =>
      split
      next => exact ih seen items h
      next =>
        split
        next => exact hstep _ rfl
        next => exact ih _ _ (hstep _ rfl)

theorem parseMobileAux_nodup (maxRank : Nat) :
    ∀ (lis : List RawLi) (seen : List String) (items : List Product),
      (items.map itemKey).Nodup →
      (∀ p ∈ items, itemKey p ∈ seen) →
      ((parseMobileAux maxRank lis seen items).map itemKey).Nodup := by
  intro lis
  induction lis with
  | nil =>
    intro seen items h1 _
    simpa [parseMobileAux] using h1
  | cons li rest ih =>
    intro seen items h1 h2
    simp only [parseMobileAux]
    cases li.href with
    | none => exact ih seen items h1 h2
    | some h0 =>
      dsimp only
      split
      next => exact ih seen items h1 h2
      next =>
        split
        next => exact ih seen items h1 h2
        next hseen =>
          have hkeynotin :
              rawKey (extract_goods_code (normalize_href h0) (cleanTextS li.block))
                (normalize_href h0) ∉ items.map itemKey := by
            intro hmem
            obtain ⟨p, hp, hpk⟩ := List.mem_map.mp hmem
            have hmem2 := h2 p hp
            rw [hpk] at hmem2
            exact hseen (List.elem_iff.mpr hmem2)
          have hnodup2 : ∀ (p : Product), itemKey p =
              rawKey (extract_goods_code (normalize_href h0) (cleanTextS li.block))
                (normalize_href h0) →
              ((items ++ [p]).map itemKey).Nodup := by
            intro p hp
            simp only [List.map_append, List.map_cons, List.map_nil]
            rw [List.nodup_append]
            refine ⟨h1, List.nodup_singleton _, ?_⟩
            intro a ha hb
            simp only [List.mem_singleton] at hb
            subst hb
            rw [hp] at ha
            exact hkeynotin ha
          split
          next => exact hnodup2 _ rfl
          next =>
            refine ih _ _ (hnodup2 _ rfl) ?_
            intro p hp
            rcases List.mem_append.mp hp with hmem | hmem
            · exact List.mem_cons_of_mem _ (h2 p hmem)
            · simp only [List.mem_singleton] at hmem
              subst hmem
              exact List.mem_cons_self _ _

/-- C3 (amended): the first-seen-wins deduplication happens during
parsing, on the raw key (goods code, else normalized href): the parse
output never contains two items with the same raw key, and a duplicate
key never raises (the parse is a total function). The keyed snapshot
index itself (`keyify`) discards nothing: it indexes every row of a
nonempty input, so rows whose distinct raw keys normalize to the same
key remain as multiple entries under one index key. -/
theorem C3_first_seen_parse_index_keeps_all :
    (∀ (maxRank : Nat) (lis : List RawLi),
      ((parse_mobile_html maxRank lis).map itemKey).Nodup) ∧
    (∀ df : List Row, df ≠ [] → ∃ l, keyify df = some l ∧ l.length = df.length) := by
  constructor
  · intro maxRank lis
    exact parseMobileAux_nodup maxRank lis [] [] (by simp) (by simp)
  · intro df h
    match df, h with
    | r :: rest, _ =>
      refine ⟨_, rfl, ?_⟩
      simp [List.length_map]

/-- C3 counterexample: two scraped records with distinct raw locators
(`https://x/?a=1&utm_source=y` vs `https://x/?a=1`) both survive the
parse-time dedup, but normalize to the same identity key, and `keyify`
indexes both — after construction the index maps that key to two
records, not one. -/
theorem C3_counterexample :
    ((keyify [⟨some 1, none, "https://x/?a=1&utm_source=y", "P1", ""⟩,
              ⟨some 2, none, "https://x/?a=1", "P2", ""⟩]).getD []).map Prod.fst =
      ["https://x/?a=1", "https://x/?a=1"] := by
  decide

/-- C3 witness. -/
theorem C3_first_seen_parse_index_keeps_all_witness :
    ((parse_mobile_html 200 [demoLi]).map itemKey).Nodup ∧
      ∃ l, keyify [(⟨some 1, some "11", "u", "n", "b"⟩ : Row)] = some l ∧
        l.length = 1 :=
  ⟨C3_first_seen_parse_index_keeps_all.1 200 [demoLi],
    C3_first_seen_parse_index_keeps_all.2 [⟨some 1, some "11", "u", "n", "b"⟩]
      (by decide)⟩

theorem moverEntry_some (nameF : Row → List Char) (t30 p30 : List (String × Row))
    (a : String) (m : Mover) (h : moverEntry nameF t30 p30 a = some m) :
    m.key = a ∧ ∃ rp rt pr cr, lookupRow p30 a = some rp ∧ rp.rank = some pr ∧
      lookupRow t30 a = some rt ∧ rt.rank = some cr ∧ 0 < cr - pr ∧
      m.drop = cr - pr := by
  cases hp : lookupRow p30 a with
  | none =>
    simp only [moverEntry, hp] at h
    exact Option.noConfusion h
  | some rp =>
    cases ht : lookupRow t30 a with
    | none =>
      simp only [moverEntry, hp, ht] at h
      exact Option.noConfusion h
    | some rt =>
      cases hpr : rp.rank with
      | none =>
        simp only [moverEntry, hp, ht, hpr] at h
        exact Option.noConfusion h
      | some pr =>
        cases hcr : rt.rank with
        | none =>
          simp only [moverEntry, hp, ht, hpr, hcr] at h
          exact Option.noConfusion h
        | some cr =>
          simp only [moverEntry, hp, ht, hpr, hcr] at h
          by_cases hd : 0 < cr - pr
          · rw [if_pos hd] at h
            have hm := Option.some_inj.mp h
            subst hm
            exact ⟨rfl, rp, rt, pr, cr, rfl, hpr, rfl, hcr, hd, rfl⟩
          · rw [if_neg hd] at h
            exact absurd h (by simp)

/-- C6 (confirmed): the movement classification of `build_sections`. The
top-10 marker annotates a riser with the positive delta
`previousRank - currentRank` and a faller with its absolute value, and
leaves an unchanged entity unmarked; the falling list (`movers`)
contains a common key exactly when its delta is negative, carrying the
drop magnitude `currentRank - previousRank`, and an entity with
delta >= 0 never appears in it. -/
theorem C6_rank_delta_classification :
    (∀ pr cr : Int,
      (0 < pr - cr → markerOf pr cr = "(↑" ++ toString (pr - cr) ++ ") ") ∧
      (pr - cr < 0 → markerOf pr cr = "(↓" ++ toString (pr - cr).natAbs ++ ") ") ∧
      (pr - cr = 0 → markerOf pr cr = "")) ∧
    (∀ (dfT dfP : List Row) (k : String) (rp rt : Row) (pr cr : Int),
      k ∈ commonKeysOf dfT dfP →
      lookupRow (p30Of dfP) k = some rp → rp.rank = some pr →
      lookupRow (t30Of dfT) k = some rt → rt.rank = some cr →
      ((pr - cr < 0 →
          (⟨cr - pr, cr, pr, k, plain_name rt⟩ : Mover) ∈ moversOf dfT dfP) ∧
        (0 ≤ pr - cr → ∀ m ∈ moversOf dfT dfP, m.key ≠ k))) := by
  constructor
  · intro pr cr
    refine ⟨?_, ?_, ?_⟩
    · intro h
      simp only [markerOf]
      rw [if_pos h]
    · intro h
      simp only [markerOf]
      rw [if_neg (by omega), if_pos h]
    · intro h
      simp only [markerOf]
      rw [if_neg (by omega), if_neg (by omega)]
  · intro dfT dfP k rp rt pr cr hk hP hpr hT hcr
    constructor
    · intro hd
      refine List.mem_filterMap.mpr ⟨k, hk, ?_⟩
      simp only [moverEntry, hP, hT, hpr, hcr]
      rw [if_pos (by omega)]
    · intro hd m hm hkey
      obtain ⟨a, _, ha⟩ := List.mem_filterMap.mp hm
      obtain ⟨hma, rp2, rt2, pr2, cr2, hp2, hpr2, ht2, hcr2, hd2, _⟩ :=
        moverEntry_some plain_name (t30Of dfT) (p30Of dfP) a m ha
      rw [hkey] at hma
      subst hma
      rw [hP] at hp2
      obtain rfl := Option.some_inj.mp hp2
      rw [hT] at ht2
      obtain rfl := Option.some_inj.mp ht2
      rw [hpr] at hpr2
      obtain rfl := Option.some_inj.mp hpr2
      rw [hcr] at hcr2
      obtain rfl := Option.some_inj.mp hcr2
      omega

/-- C6 witness: the claim's concrete examples — previousRank 20 /
currentRank 5 is a riser marked `(↑15)`, previousRank 5 / currentRank
20 is a faller of magnitude 15 present in the movers list, and an
unchanged rank gets no marker. -/
theorem C6_rank_delta_classification_witness :
    markerOf 20 5 = "(↑15) " ∧ markerOf 5 20 = "(↓15) " ∧ markerOf 7 7 = "" ∧
      (⟨15, 20, 5, "11", ['X']⟩ : Mover) ∈ moversOf c6dfT c6dfP := by
  refine ⟨?_, ?_, ?_, ?_⟩
  · exact ((C6_rank_delta_classification.1 20 5).1 (by decide)).trans (by decide)
  · exact ((C6_rank_delta_classification.1 5 20).2.1 (by decide)).trans (by decide)
  · exact (C6_rank_delta_classification.1 7 7).2.2 (by decide)
  · have h := (C6_rank_delta_classification.2 c6dfT c6dfP "11"
      ⟨some 5, some "11", "u", "X", ""⟩ ⟨some 20, some "11", "u", "X", ""⟩ 5 20
      (by decide) (by decide) (by decide) (by decide) (by decide)).1 (by decide)
    have he : (⟨(20 : Int) - 5, 20, 5, "11",
        plain_name ⟨some 20, some "11", "u", "X", ""⟩⟩ : Mover) =
        ⟨15, 20, 5, "11", ['X']⟩ := by decide
    rw [he] at h
    exact h

theorem chooseLoop_eq (cap : Nat) :
    ∀ (l : List Mover) (acc : List String),
      chooseLoop cap l acc = acc ++ (l.map Mover.key).take (cap - acc.length) := by
  intro l
  induction l with
  | nil =>
    intro acc
    simp [chooseLoop]
  | cons m ms ih =>
    intro acc
    rw [chooseLoop]
    by_cases h : cap ≤ acc.length
    · rw [if_pos h]
      have h0 : cap - acc.length = 0 := by omega
      simp [h0]
    · rw [if_neg h, ih]
      have h1 : cap - acc.length = (cap - (acc.length + 1)) + 1 := by omega
      rw [h1]
      simp [List.take_succ_cons]

theorem backfillLoop_eq (cap : Nat) :
    ∀ (l : List (String × Row)) (acc : List String),
      backfillLoop cap l acc = acc ++ (l.map Prod.fst).take (cap - acc.length) := by
  intro l
  induction l with
  | nil =>
    intro acc
    simp [backfillLoop]
  | cons p ps ih =>
    intro acc
    rw [backfillLoop]
    by_cases h : cap ≤ acc.length
    · rw [if_pos h]
      have h0 : cap - acc.length = 0 := by omega
      simp [h0]
    · rw [if_neg h, ih]
      have h1 : cap - acc.length = (cap - (acc.length + 1)) + 1 := by omega
      rw [h1]
      simp [List.take_succ_cons]

/-- C7 (amended): the falling list consists of the mover keys sorted
ascending by the tuple `(-dropMagnitude, currentRank, previousRank,
comparisonName)` truncated to the cap `MAX_FALLING = 5`, backfilled
from the dropped entries sorted by ascending previous rank until the
cap is reached or both lists are exhausted — where the comparison name
is `plain_name` (the display name with bracket groups AND noise tokens
stripped, whitespace collapsed, and the brand prepended when missing),
not merely the bracket-stripped display name of the claim. -/
theorem C7_falling_selection (dfT dfP : List Row) :
    fallingKeys dfT dfP =
      ((List.insertionSort (fun a b => moverLeB a b = true)
          (moversOf dfT dfP)).map Mover.key).take MAX_FALLING ++
      ((List.insertionSort (fun a b => outLeB a b = true)
          (outPairsOf dfT dfP)).map Prod.fst).take
        (MAX_FALLING -
          (((List.insertionSort (fun a b => moverLeB a b = true)
            (moversOf dfT dfP)).map Mover.key).take MAX_FALLING).length) := by
  unfold fallingKeys fallingKeysWith
  dsimp only
  simp only [moversOf]
  rw [chooseLoop_eq]
  simp only [List.nil_append, List.length_nil, Nat.sub_zero]
  by_cases h : (((List.insertionSort (fun a b => moverLeB a b = true)
      (moversOfW plain_name dfT dfP)).map Mover.key).take MAX_FALLING).length <
      MAX_FALLING
  · rw [if_pos h, backfillLoop_eq]
  · rw [if_neg h]
    have h0 : MAX_FALLING -
        (((List.insertionSort (fun a b => moverLeB a b = true)
          (moversOfW plain_name dfT dfP)).map Mover.key).take MAX_FALLING).length = 0 := by
      omega
    rw [h0]
    simp

/-- C7 counterexample: with two fallers fully tied on (drop, current
rank, previous rank), the source orders them by `plain_name`
("A OFFB" strips to "A B", which sorts before "A C"), while the
claim's comparison name (brackets only) orders "A C" before "A OFFB":
the produced list differs from the claim's prescription. The backfill
part (dropped keys 444 before 333, by ascending previous rank) agrees. -/
theorem C7_counterexample :
    fallingKeys c7dfT c7dfP = ["111", "222", "444", "333"] ∧
      fallingKeysSpec c7dfT c7dfP = ["222", "111", "444", "333"] ∧
      fallingKeys c7dfT c7dfP ≠ fallingKeysSpec c7dfT c7dfP := by
  refine ⟨?_, ?_, ?_⟩
  · decide
  · decide
  · decide

/-- C10 (confirmed): in both the mobile parse loop and the desktop item
loop, the produced ranks are exactly 1, 2, ..., n in output order
(assigned by position after the ad/noise and duplicate-key filters),
and n never exceeds the configured maximum rank. -/
theorem C10_ranks_dense (maxRank : Nat) (h : 1 ≤ maxRank)
    (lis : List RawLi) (rows : List RawRow) :
    ((parse_mobile_html maxRank lis).map Product.rank =
        List.range' 1 (parse_mobile_html maxRank lis).length ∧
      (parse_mobile_html maxRank lis).length ≤ maxRank) ∧
    ((desktop_items maxRank rows).map Product.rank =
        List.range' 1 (desktop_items maxRank rows).length ∧
      (desktop_items maxRank rows).length ≤ maxRank) := by
  refine ⟨⟨?_, ?_⟩, ?_, ?_⟩
  · exact parseMobileAux_ranks maxRank lis [] [] (by simp)
  · exact parseMobileAux_length maxRank lis [] [] (by simpa using h)
  · exact desktopAux_ranks maxRank rows [] [] (by simp)
  · exact desktopAux_length maxRank rows [] [] (by simpa using h)

/-- C10 witness: the dense-rank and cap facts at the default
`MAX_RANK = 200` on sample inputs. -/
theorem C10_ranks_dense_witness :
    ((parse_mobile_html MAX_RANK_default [demoLi]).map Product.rank =
        List.range' 1 (parse_mobile_html MAX_RANK_default [demoLi]).length ∧
      (parse_mobile_html MAX_RANK_default [demoLi]).length ≤ MAX_RANK_default) ∧
    ((desktop_items MAX_RANK_default [demoRow]).map Product.rank =
        List.range' 1 (desktop_items MAX_RANK_default [demoRow]).length ∧
      (desktop_items MAX_RANK_default [demoRow]).length ≤ MAX_RANK_default) :=
  C10_ranks_dense MAX_RANK_default (by decide) [demoLi] [demoRow]

/-! ## Generic list lemmas for the URL evaluation -/

theorem takeWhile_pre {p : Char → Bool} :
    ∀ (l1 : List Char) (a : Char) (l2 : List Char),
      (∀ x ∈ l1, p x = true) → p a = false →
      (l1 ++ a :: l2).takeWhile p = l1 := by
  intro l1
  induction l1 with
  | nil =>
    intro a l2 _ ha
    simp [List.takeWhile, ha]
  | cons c cs ih =>
    intro a l2 h ha
    have hc : p c = true := h c (List.mem_cons_self c cs)
    simp [List.cons_append, List.takeWhile_cons, hc,
      ih a l2 (fun x hx => h x (List.mem_cons_of_mem c hx)) ha]

theorem dropWhile_pre {p : Char → Bool} :
    ∀ (l1 : List Char) (a : Char) (l2 : List Char),
      (∀ x ∈ l1, p x = true) → p a = false →
      (l1 ++ a :: l2).dropWhile p = a :: l2 := by
  intro l1
  induction l1 with
  | nil =>
    intro a l2 _ ha
    simp [List.dropWhile, ha]
  | cons c cs ih =>
    intro a l2 h ha
    have hc : p c = true := h c (List.mem_cons_self c cs)
    simp only [List.cons_append, List.dropWhile_cons, hc]
    exact ih a l2 (fun x hx => h x (List.mem_cons_of_mem c hx)) ha

theorem takeWhile_all {p : Char → Bool} :
    ∀ (l : List Char), (∀ x ∈ l, p x = true) → l.takeWhile p = l := by
  intro l
  induction l with
  | nil => intro _; rfl
  | cons c cs ih =>
    intro h
    have hc : p c = true := h c (List.mem_cons_self c cs)
    simp [List.takeWhile_cons, hc,
      ih (fun x hx => h x (List.mem_cons_of_mem c hx))]

theorem dropWhile_all {p : Char → Bool} :
    ∀ (l : List Char), (∀ x ∈ l, p x = true) → l.dropWhile p = [] := by
  intro l
  induction l with
  | nil => intro _; rfl
  | cons c cs ih =>
    intro h
    have hc : p c = true := h c (List.mem_cons_self c cs)
    simp [List.dropWhile_cons, hc,
      ih (fun x hx => h x (List.mem_cons_of_mem c hx))]

theorem dropWhile_id {p : Char → Bool} :
    ∀ (l : List Char), (∀ x ∈ l, p x = false) → l.dropWhile p = l := by
  intro l h
  cases l with
  | nil => rfl
  | cons c cs =>
    simp [List.dropWhile_cons, h c (List.mem_cons_self c cs)]

theorem span_eq_self {p : Char → Bool} (l : List Char)
    (h : ∀ x ∈ l, p x = true) : l.span p = (l, []) := by
  rw [List.span_eq_take_drop, takeWhile_all l h, dropWhile_all l h]

theorem span_pre {p : Char → Bool} (l1 : List Char) (a : Char)
    (l2 : List Char) (h : ∀ x ∈ l1, p x = true) (ha : p a = false) :
    (l1 ++ a :: l2).span p = (l1, a :: l2) := by
  rw [List.span_eq_take_drop, takeWhile_pre l1 a l2 h ha,
    dropWhile_pre l1 a l2 h ha]

theorem map_id_of {f : Char → Char} :
    ∀ (l : List Char), (∀ x ∈ l, f x = x) → l.map f = l := by
  intro l
  induction l with
  | nil => intro _; rfl
  | cons c cs ih =>
    intro h
    simp only [List.map_cons, h c (List.mem_cons_self c cs)]
    rw [ih (fun x hx => h x (List.mem_cons_of_mem c hx))]

theorem pyStrip_id (l : List Char) (h : ∀ c ∈ l, pyWs c = false) :
    pyStrip l = l := by
  unfold pyStrip
  rw [dropWhile_id l h]
  rw [dropWhile_id l.reverse (fun c hc => h c (List.mem_reverse.mp hc))]
  exact List.reverse_reverse l

theorem splitOnChar_ne_nil (sep : Char) :
    ∀ (l : List Char), splitOnChar sep l ≠ [] := by
  intro l
  induction l with
  | nil => simp [splitOnChar]
  | cons c cs ih =>
    rw [splitOnChar]
    cases hs : splitOnChar sep cs with
    | nil => exact absurd hs ih
    | cons h t =>
      split <;> simp <;> split <;> simp

theorem splitOnChar_no_sep (sep : Char) :
    ∀ (l : List Char), (∀ c ∈ l, (c == sep) = false) →
      splitOnChar sep l = [l] := by
  intro l
  induction l with
  | nil => intro _; rfl
  | cons c cs ih =>
    intro h
    rw [splitOnChar, ih (fun x hx => h x (List.mem_cons_of_mem c hx))]
    simp [h c (List.mem_cons_self c cs)]

theorem splitOnChar_append (sep : Char) :
    ∀ (l1 l2 : List Char), (∀ c ∈ l1, (c == sep) = false) →
      splitOnChar sep (l1 ++ sep :: l2) = l1 :: splitOnChar sep l2 := by
  intro l1
  induction l1 with
  | nil =>
    intro l2 _
    rw [List.nil_append, splitOnChar]
    cases hsp : splitOnChar sep l2 with
    | nil => exact absurd hsp (splitOnChar_ne_nil sep l2)
    | cons h t => simp
  | cons c cs ih =>
    intro l2 h
    rw [List.cons_append, splitOnChar,
      ih l2 (fun x hx => h x (List.mem_cons_of_mem c hx))]
    simp [h c (List.mem_cons_self c cs)]

/-! ## Character-class facts -/

theorem hostChar_nat (c : Char) (h : hostChar c = true) :
    (97 ≤ c.toNat ∧ c.toNat ≤ 122) ∨ (48 ≤ c.toNat ∧ c.toNat ≤ 57) ∨
      c.toNat = 46 ∨ c.toNat = 45 := by
  simp only [hostChar, Bool.or_eq_true, Bool.and_eq_true,
    decide_eq_true_eq, beq_iff_eq] at h
  omega

theorem qChar_nat (c : Char) (h : qChar c = true) :
    (97 ≤ c.toNat ∧ c.toNat ≤ 122) ∨ (48 ≤ c.toNat ∧ c.toNat ≤ 57) ∨
      c.toNat = 95 := by
  simp only [qChar, Bool.or_eq_true, Bool.and_eq_true,
    decide_eq_true_eq, beq_iff_eq] at h
  omega

theorem pathChar_nat (c : Char) (h : pathChar c = true) :
    hostChar c = true ∨ c.toNat = 47 := by
  simp only [pathChar, Bool.or_eq_true, beq_iff_eq] at h
  exact h

theorem urlOutChar_nat (c : Char) (h : urlOutChar c) :
    (97 ≤ c.toNat ∧ c.toNat ≤ 122) ∨ (48 ≤ c.toNat ∧ c.toNat ≤ 57) ∨
      c.toNat = 46 ∨ c.toNat = 45 ∨ c.toNat = 95 ∨ c.toNat = 58 ∨
      c.toNat = 47 ∨ c.toNat = 63 ∨ c.toNat = 61 ∨ c.toNat = 38 := by
  rcases h with h | h | h | h | h | h | h
  · rcases hostChar_nat c h with h | h | h | h <;> omega
  · rcases qChar_nat c h with h | h | h <;> omega
  all_goals omega

theorem urlOutChar_notWs (c : Char) (h : urlOutChar c) : pyWs c = false := by
  have hn := urlOutChar_nat c h
  simp only [pyWs, Bool.or_eq_false_iff, beq_eq_false_iff_ne]
  omega

theorem urlOutChar_lower (c : Char) (h : urlOutChar c) : lowerChar c = c := by
  have hn := urlOutChar_nat c h
  unfold lowerChar
  rw [if_neg]
  omega

/-! ## Evaluation of the urlparse components on the well-formed
fragment -/

theorem splitScheme_https (rest : List Char) :
    splitScheme ('h' :: 't' :: 't' :: 'p' :: 's' :: ':' :: rest) =
      (['h', 't', 't', 'p', 's'], rest) := by
  unfold splitScheme
  have h1 : ('h' :: 't' :: 't' :: 'p' :: 's' :: ':' :: rest).takeWhile
      (fun c => c.toNat != 58) = ['h', 't', 't', 'p', 's'] :=
    takeWhile_pre ['h', 't', 't', 'p', 's'] ':' rest (by decide) (by decide)
  rw [h1]
  have hcond : (decide (['h', 't', 't', 'p', 's'].length <
      ('h' :: 't' :: 't' :: 'p' :: 's' :: ':' :: rest).length) &&
      decide (0 < ['h', 't', 't', 'p', 's'].length) &&
      isAsciiAlpha (['h', 't', 't', 'p', 's'].headD ' ') &&
      ['h', 't', 't', 'p', 's'].all schemeChar) = true := by
    simp only [Bool.and_eq_true, decide_eq_true_eq, List.length_cons,
      List.length_nil]
    refine ⟨⟨⟨?_, by omega⟩, by decide⟩, by decide⟩
    omega
  rw [if_pos hcond]
  simp only [Prod.mk.injEq]
  refine ⟨by decide, ?_⟩
  simp

theorem splitNetloc_eval (host rest1 : List Char)
    (hh : ∀ x ∈ host, hostChar x = true) :
    splitNetloc ('/' :: '/' :: (host ++ '/' :: rest1)) =
      some (host, '/' :: rest1) := by
  have hP : ∀ x ∈ host,
      (x.toNat != 47 && x.toNat != 63 && x.toNat != 35) = true := by
    intro x hx
    have := hostChar_nat x (hh x hx)
    simp only [Bool.and_eq_true, bne_iff_ne, ne_eq]
    omega
  unfold splitNetloc
  rw [if_pos (by simp)]
  simp only [List.drop_succ_cons, List.drop_zero]
  rw [takeWhile_pre host '/' rest1 hP (by decide),
    dropWhile_pre host '/' rest1 hP (by decide)]
  rw [if_neg]
  have hlb : host.any (fun c => c == '[') = false := by
    rw [List.any_eq_false]
    intro x hx
    have hn := hostChar_nat x (hh x hx)
    intro he
    rw [beq_iff_eq] at he
    subst he
    exact absurd hn (by decide)
  have hrb : host.any (fun c => c == ']') = false := by
    rw [List.any_eq_false]
    intro x hx
    have hn := hostChar_nat x (hh x hx)
    intro he
    rw [beq_iff_eq] at he
    subst he
    exact absurd hn (by decide)
  rw [hlb, hrb]
  simp

theorem splitHash_eval (l : List Char) (h : ∀ x ∈ l, (x.toNat != 35) = true) :
    splitHash l = (l, []) := by
  unfold splitHash
  rw [span_eq_self l h]

theorem splitQmark_no_hit (l : List Char)
    (h : ∀ x ∈ l, (x.toNat != 63) = true) : splitQmark l = (l, []) := by
  unfold splitQmark
  rw [span_eq_self l h]

theorem splitQmark_hit (l1 l2 : List Char)
    (h : ∀ x ∈ l1, (x.toNat != 63) = true) :
    splitQmark (l1 ++ '?' :: l2) = (l1, l2) := by
  unfold splitQmark
  rw [span_pre l1 '?' l2 h (by decide)]

theorem splitParams_no_semi (l : List Char)
    (h : ∀ x ∈ l, (x == ';') = false) : splitParams l = (l, []) := by
  unfold splitParams
  have hany : l.any (fun c => c == ';') = false :=
    List.any_eq_false.mpr (fun x hx => by simp [h x hx])
  rw [hany]
  simp

/-! ## Query round-trip on the well-formed fragment -/

theorem alwaysSafe_of_qChar (c : Char) (h : qChar c = true) :
    alwaysSafeByte c.toNat = true := by
  have hn := qChar_nat c h
  simp only [alwaysSafeByte, Bool.or_eq_true, Bool.and_eq_true,
    decide_eq_true_eq, beq_iff_eq]
  omega

theorem utf8EncodeChar_ascii (c : Char) (h : c.toNat < 128) :
    utf8EncodeChar c = [c.toNat] := by
  unfold utf8EncodeChar
  rw [if_pos h]

theorem quoteChar_id (c : Char) (h : qChar c = true) :
    quoteChar false c = [c] := by
  have hlt : c.toNat < 128 := by
    have := qChar_nat c h
    omega
  unfold quoteChar
  rw [utf8EncodeChar_ascii c hlt]
  simp only [List.foldr_cons, List.foldr_nil]
  rw [if_pos]
  · simp [Char.ofNat_toNat]
  · simp [alwaysSafe_of_qChar c h]

theorem quotePlusL_id (l : List Char) (h : ∀ c ∈ l, qChar c = true) :
    quotePlusL l = l := by
  unfold quotePlusL
  have hspace : l.any (fun c => c == ' ') = false := by
    rw [List.any_eq_false]
    intro x hx he
    rw [beq_iff_eq] at he
    subst he
    exact absurd (h ' ' hx) (by decide)
  rw [hspace]
  simp only [Bool.false_eq_true, if_false]
  induction l with
  | nil => rfl
  | cons c cs ih =>
    rw [List.foldr_cons, quoteChar_id c (h c (List.mem_cons_self c cs)),
      ih (fun x hx => h x (List.mem_cons_of_mem c hx))
        (by rw [List.any_eq_false] at hspace ⊢
            exact fun x hx => hspace x (List.mem_cons_of_mem c hx))]
    rfl

theorem unquoteAux_id :
    ∀ (fuel : Nat) (l : List Char), (∀ c ∈ l, (c == '%') = false) →
      unquoteAux fuel l = l := by
  intro fuel
  induction fuel with
  | zero => intro l _; cases l <;> rfl
  | succ f ih =>
    intro l h
    cases l with
    | nil => rfl
    | cons c t =>
      rw [unquoteAux]
      rw [h c (List.mem_cons_self c t)]
      simp only [Bool.false_eq_true, if_false]
      rw [ih t (fun x hx => h x (List.mem_cons_of_mem c hx))]

theorem unquotePlusL_id (l : List Char) (h : ∀ c ∈ l, qChar c = true) :
    unquotePlusL l = l := by
  unfold unquotePlusL
  have hplus : l.map (fun c => if c == '+' then ' ' else c) = l := by
    apply map_id_of
    intro x hx
    rw [if_neg]
    intro he
    rw [beq_iff_eq] at he
    subst he
    exact absurd (h '+' hx) (by decide)
  rw [hplus]
  unfold pyUnquote
  apply unquoteAux_id
  intro c hc
  rw [beq_eq_false_iff_ne]
  intro he
  subst he
  exact absurd (h '%' hc) (by decide)

theorem qslField_eval (k v : List Char) (acc : List (List Char × List Char))
    (_hk1 : k ≠ []) (hk : ∀ c ∈ k, qChar c = true) (hv1 : v ≠ [])
    (hv : ∀ c ∈ v, qChar c = true) :
    qslField (k ++ '=' :: v) acc = (k, v) :: acc := by
  have hkeq : ∀ c ∈ k, (fun c => c.toNat != 61) c = true := by
    intro c hc
    have := qChar_nat c (hk c hc)
    simp only [bne_iff_ne, ne_eq]
    omega
  unfold qslField
  rw [if_neg (by simp)]
  rw [takeWhile_pre k '=' v hkeq (by decide),
    dropWhile_pre k '=' v hkeq (by decide)]
  simp only [List.isEmpty_cons, Bool.false_eq_true, if_false, List.tail_cons]
  rw [if_neg (by simp [hv1]), unquotePlusL_id k hk, unquotePlusL_id v hv]

theorem encQ_chars (q : List (List Char × List Char))
    (hq : ∀ kv ∈ q, (∀ c ∈ kv.1, qChar c = true) ∧ ∀ c ∈ kv.2, qChar c = true) :
    ∀ c ∈ encQ q, qChar c = true ∨ c.toNat = 61 ∨ c.toNat = 38 := by
  induction q with
  | nil => intro c hc; exact absurd hc (List.not_mem_nil c)
  | cons kv rest ih =>
    intro c hc
    cases rest with
    | nil =>
      simp only [encQ, List.mem_append, List.mem_cons] at hc
      rcases hc with hc | rfl | hc
      · exact Or.inl ((hq kv (List.mem_cons_self kv [])).1 c hc)
      · right; left; rfl
      · exact Or.inl ((hq kv (List.mem_cons_self kv [])).2 c hc)
    | cons kv2 rest2 =>
      rw [show encQ (kv :: kv2 :: rest2) =
          kv.1 ++ '=' :: (kv.2 ++ '&' :: encQ (kv2 :: rest2)) by
          simp only [encQ]
          simp] at hc
      rw [List.mem_append, List.mem_cons] at hc
      rcases hc with hc | rfl | hc
      · exact Or.inl ((hq kv (List.mem_cons_self kv _)).1 c hc)
      · right; left; rfl
      · rw [List.mem_append, List.mem_cons] at hc
        rcases hc with hc | rfl | hc
        · exact Or.inl ((hq kv (List.mem_cons_self kv _)).2 c hc)
        · right; right; rfl
        · exact ih (fun x hx => hq x (List.mem_cons_of_mem kv hx)) c hc

theorem parseQsl_encQ (q : List (List Char × List Char))
    (hq : ∀ kv ∈ q, kv.1 ≠ [] ∧ kv.2 ≠ [] ∧ (∀ c ∈ kv.1, qChar c = true) ∧
      ∀ c ∈ kv.2, qChar c = true) :
    parseQsl (encQ q) = q := by
  induction q with
  | nil => rfl
  | cons kv rest ih =>
    obtain ⟨hk1, hv1, hk, hv⟩ := hq kv (List.mem_cons_self kv rest)
    have hfield : ∀ c ∈ kv.1 ++ '=' :: kv.2, (c == '&') = false := by
      intro c hc
      rw [beq_eq_false_iff_ne]
      intro he
      subst he
      simp only [List.mem_append, List.mem_cons] at hc
      rcases hc with hc | hc | hc
      · exact absurd (qChar_nat _ (hk _ hc)) (by decide)
      · exact absurd hc (by decide)
      · exact absurd (qChar_nat _ (hv _ hc)) (by decide)
    cases rest with
    | nil =>
      show parseQsl (kv.1 ++ '=' :: kv.2) = [kv]
      unfold parseQsl
      rw [splitOnChar_no_sep '&' _ hfield]
      simp only [List.foldr_cons, List.foldr_nil]
      rw [qslField_eval kv.1 kv.2 [] hk1 hk hv1 hv]
    | cons kv2 rest2 =>
      rw [show encQ (kv :: kv2 :: rest2) =
          (kv.1 ++ '=' :: kv.2) ++ '&' :: encQ (kv2 :: rest2) by
        simp only [encQ]]
      unfold parseQsl
      rw [splitOnChar_append '&' _ _ hfield]
      rw [List.foldr_cons]
      have hrest : List.foldr qslField [] (splitOnChar '&' (encQ (kv2 :: rest2))) =
          kv2 :: rest2 := ih (fun x hx => hq x (List.mem_cons_of_mem kv hx))
      rw [hrest]
      rw [qslField_eval kv.1 kv.2 _ hk1 hk hv1 hv]

theorem urlencodeL_encQ (q : List (List Char × List Char))
    (hq : ∀ kv ∈ q, (∀ c ∈ kv.1, qChar c = true) ∧ ∀ c ∈ kv.2, qChar c = true) :
    urlencodeL q = encQ q := by
  induction q with
  | nil => rfl
  | cons kv rest ih =>
    obtain ⟨hk, hv⟩ := hq kv (List.mem_cons_self kv rest)
    cases rest with
    | nil =>
      show urlencodeL [kv] = encQ [kv]
      unfold urlencodeL encQ
      rw [quotePlusL_id kv.1 hk, quotePlusL_id kv.2 hv]
    | cons kv2 rest2 =>
      show urlencodeL (kv :: kv2 :: rest2) = encQ (kv :: kv2 :: rest2)
      unfold urlencodeL encQ
      rw [quotePlusL_id kv.1 hk, quotePlusL_id kv.2 hv,
        ih (fun x hx => hq x (List.mem_cons_of_mem kv hx))]

theorem encQ_ne_nil (kv : List Char × List Char)
    (rest : List (List Char × List Char)) : encQ (kv :: rest) ≠ [] := by
  cases rest with
  | nil =>
    simp only [encQ]
    intro h
    exact absurd (congrArg List.length h) (by simp)
  | cons kv2 rest2 =>
    simp only [encQ]
    intro h
    exact absurd (congrArg List.length h) (by simp)

theorem encQ_isEmpty (q : List (List Char × List Char)) :
    (encQ q).isEmpty = q.isEmpty := by
  cases q with
  | nil => rfl
  | cons kv rest =>
    cases he : encQ (kv :: rest) with
    | nil => exact absurd he (encQ_ne_nil kv rest)
    | cons a t => rfl

theorem ne_nil_of_isEmpty_false {α : Type} {l : List α}
    (h : l.isEmpty = false) : l ≠ [] := by
  intro he
  subst he
  simp at h

theorem filter_idem {α : Type} (f : α → Bool) (l : List α) :
    (l.filter f).filter f = l.filter f := by
  induction l with
  | nil => rfl
  | cons a t ih =>
    cases h : f a with
    | true => simp [List.filter_cons, h, ih]
    | false => simp [List.filter_cons, h, ih]

theorem qOkB_filter (q : List (List Char × List Char))
    (f : List Char × List Char → Bool) (h : qOkB q = true) :
    qOkB (q.filter f) = true := by
  simp only [qOkB, List.all_eq_true] at h ⊢
  exact fun kv hkv => h kv (List.mem_of_mem_filter hkv)

theorem mk_ne_empty (l : List Char) (h : l ≠ []) : String.mk l ≠ "" := by
  intro he
  apply h
  have h2 : (String.mk l).data = ("" : String).data := by rw [he]
  exact h2

/-! ## Evaluation of `_norm_url` on the well-formed fragment -/

theorem mkUrl_chars (host path : List Char) (q : List (List Char × List Char))
    (hh : ∀ x ∈ host, hostChar x = true) (hp : ∀ x ∈ path, pathChar x = true)
    (hq : ∀ kv ∈ q, (∀ c ∈ kv.1, qChar c = true) ∧ ∀ c ∈ kv.2, qChar c = true) :
    ∀ c ∈ mkUrl host path q, urlOutChar c := by
  have htail : ∀ c ∈ (if q.isEmpty then ([] : List Char) else '?' :: encQ q),
      urlOutChar c := by
    intro c hc
    split at hc
    · exact absurd hc (List.not_mem_nil c)
    · rcases List.mem_cons.mp hc with rfl | hc
      · exact Or.inr (Or.inr (Or.inr (Or.inr (Or.inl rfl))))
      · rcases encQ_chars q hq c hc with h | h | h
        · exact Or.inr (Or.inl h)
        · exact Or.inr (Or.inr (Or.inr (Or.inr (Or.inr (Or.inl h)))))
        · exact Or.inr (Or.inr (Or.inr (Or.inr (Or.inr (Or.inr h)))))
  intro c hc
  simp only [mkUrl, List.mem_cons, List.mem_append] at hc
  rcases hc with rfl | rfl | rfl | rfl | rfl | rfl | rfl | rfl | hc | rfl | hc | hc
  · exact Or.inl (by decide)
  · exact Or.inl (by decide)
  · exact Or.inl (by decide)
  · exact Or.inl (by decide)
  · exact Or.inl (by decide)
  · exact Or.inr (Or.inr (Or.inl rfl))
  · exact Or.inr (Or.inr (Or.inr (Or.inl rfl)))
  · exact Or.inr (Or.inr (Or.inr (Or.inl rfl)))
  · exact Or.inl (hh c hc)
  · exact Or.inr (Or.inr (Or.inr (Or.inl rfl)))
  · rcases pathChar_nat c (hp c hc) with h | h
    · exact Or.inl h
    · exact Or.inr (Or.inr (Or.inr (Or.inl h)))
  · exact htail c hc

theorem urlparseL_mkUrl (host path : List Char) (q : List (List Char × List Char))
    (hh : ∀ x ∈ host, hostChar x = true) (hp : ∀ x ∈ path, pathChar x = true)
    (hq : ∀ kv ∈ q, (∀ c ∈ kv.1, qChar c = true) ∧ ∀ c ∈ kv.2, qChar c = true) :
    urlparseL (mkUrl host path q) =
      some ⟨['h', 't', 't', 'p', 's'], host, '/' :: path, [],
        if q.isEmpty then [] else encQ q, []⟩ := by
  have huse : usesParams.contains ['h', 't', 't', 'p', 's'] = true := by decide
  have hp63 : ∀ x ∈ '/' :: path, (x.toNat != 63) = true := by
    intro x hx
    rcases List.mem_cons.mp hx with rfl | hx
    · decide
    · rcases pathChar_nat x (hp x hx) with h | h
      · have := hostChar_nat x h
        simp only [bne_iff_ne, ne_eq]
        omega
      · simp only [bne_iff_ne, ne_eq]
        omega
  have hp59 : ∀ x ∈ '/' :: path, (x == ';') = false := by
    intro x hx
    rw [beq_eq_false_iff_ne]
    intro he
    subst he
    rcases List.mem_cons.mp hx with h | h
    · exact absurd h (by decide)
    · rcases pathChar_nat ';' (hp ';' h) with h2 | h2
      · exact absurd (hostChar_nat ';' h2) (by decide)
      · exact absurd h2 (by decide)
  cases q with
  | nil =>
    have hmk : mkUrl host path [] =
        'h' :: 't' :: 't' :: 'p' :: 's' :: ':' ::
          ('/' :: '/' :: (host ++ '/' :: path)) := by
      simp [mkUrl]
    have h35n : ∀ x ∈ '/' :: path, (x.toNat != 35) = true := by
      intro x hx
      rcases List.mem_cons.mp hx with rfl | hx
      · decide
      · rcases pathChar_nat x (hp x hx) with h | h
        · have := hostChar_nat x h
          simp only [bne_iff_ne, ne_eq]
          omega
        · simp only [bne_iff_ne, ne_eq]
          omega
    rw [hmk]
    unfold urlparseL
    simp only [splitScheme_https, splitNetloc_eval host path hh,
      splitHash_eval _ h35n, splitQmark_no_hit _ hp63, huse, if_true,
      eq_self_iff_true, splitParams_no_semi _ hp59]
    rfl
  | cons kv rest =>
    have hmk : mkUrl host path (kv :: rest) =
        'h' :: 't' :: 't' :: 'p' :: 's' :: ':' ::
          ('/' :: '/' :: (host ++ '/' :: (path ++ '?' :: encQ (kv :: rest)))) := by
      simp [mkUrl]
    have hsub : ∀ x ∈ '/' :: (path ++ '?' :: encQ (kv :: rest)), urlOutChar x := by
      intro x hx
      rcases List.mem_cons.mp hx with rfl | hx
      · exact Or.inr (Or.inr (Or.inr (Or.inl rfl)))
      · rcases List.mem_append.mp hx with h | h
        · rcases pathChar_nat x (hp x h) with h2 | h2
          · exact Or.inl h2
          · exact Or.inr (Or.inr (Or.inr (Or.inl h2)))
        · rcases List.mem_cons.mp h with rfl | h
          · exact Or.inr (Or.inr (Or.inr (Or.inr (Or.inl rfl))))
          · rcases encQ_chars (kv :: rest) hq x h with h2 | h2 | h2
            · exact Or.inr (Or.inl h2)
            · exact Or.inr (Or.inr (Or.inr (Or.inr (Or.inr (Or.inl h2)))))
            · exact Or.inr (Or.inr (Or.inr (Or.inr (Or.inr (Or.inr h2)))))
    have h35c : ∀ x ∈ '/' :: (path ++ '?' :: encQ (kv :: rest)),
        (x.toNat != 35) = true := by
      intro x hx
      have := urlOutChar_nat x (hsub x hx)
      simp only [bne_iff_ne, ne_eq]
      omega
    have hqm : splitQmark ('/' :: (path ++ '?' :: encQ (kv :: rest))) =
        ('/' :: path, encQ (kv :: rest)) :=
      splitQmark_hit ('/' :: path) (encQ (kv :: rest)) hp63
    rw [hmk]
    unfold urlparseL
    simp only [splitScheme_https,
      splitNetloc_eval host (path ++ '?' :: encQ (kv :: rest)) hh,
      splitHash_eval _ h35c, hqm, huse, if_true, eq_self_iff_true,
      splitParams_no_semi _ hp59, List.isEmpty_cons]
    rfl

theorem urlunparseL_eval (host path qenc : List Char) (hhne : host ≠ []) :
    urlunparseL ⟨['h', 't', 't', 'p', 's'], host, '/' :: path, [], qenc, []⟩ =
      'h' :: 't' :: 't' :: 'p' :: 's' :: ':' :: '/' :: '/' ::
        (host ++ '/' :: (path ++ (if qenc.isEmpty then [] else '?' :: qenc))) := by
  have hie : host.isEmpty = false := by
    cases host with
    | nil => exact absurd rfl hhne
    | cons a t => rfl
  unfold urlunparseL
  cases qenc with
  | nil => simp [hie]
  | cons a t => simp [hie, List.append_assoc]

theorem norm_url_l_eval (u0 : List Char) (parts : UrlParts)
    (h0 : pyStrip u0 = u0)
    (h2 : ¬(u0.take 2 = ['/', '/']))
    (h1 : ¬(u0.take 1 = ['/']))
    (hp : urlparseL u0 = some parts) :
    norm_url_l u0 = lowerL (urlunparseL
      { parts with query := urlencodeL ((parseQsl parts.query).filter
          (fun kv => !(badParams.contains kv.1))) }) := by
  simp only [norm_url_l]
  rw [h0, if_neg h2, if_neg h1, hp]

theorem norm_url_l_mkUrl (host path : List Char) (q : List (List Char × List Char))
    (hh : hostOkB host = true) (hp : pathOkB path = true) (hq : qOkB q = true) :
    norm_url_l (mkUrl host path q) =
      mkUrl host path (q.filter (fun kv => !(badParams.contains kv.1))) := by
  have hh2 := hh
  simp only [hostOkB, Bool.and_eq_true] at hh2
  have hh3 : ∀ x ∈ host, hostChar x = true := List.all_eq_true.mp hh2.2
  have hhne : host ≠ [] := by
    intro he
    rw [he] at hh2
    exact absurd hh2.1 (by decide)
  have hp3 : ∀ x ∈ path, pathChar x = true := List.all_eq_true.mp hp
  have hq3 : ∀ kv ∈ q, kv.1 ≠ [] ∧ kv.2 ≠ [] ∧ (∀ c ∈ kv.1, qChar c = true) ∧
      ∀ c ∈ kv.2, qChar c = true := by
    intro kv hkv
    have h := List.all_eq_true.mp hq kv hkv
    simp only [Bool.and_eq_true, Bool.not_eq_true', List.all_eq_true] at h
    exact ⟨ne_nil_of_isEmpty_false h.1.1.1, ne_nil_of_isEmpty_false h.1.1.2,
      h.1.2, h.2⟩
  have hqc : ∀ kv ∈ q, (∀ c ∈ kv.1, qChar c = true) ∧
      ∀ c ∈ kv.2, qChar c = true :=
    fun kv hkv => ⟨(hq3 kv hkv).2.2.1, (hq3 kv hkv).2.2.2⟩
  have hchars : ∀ c ∈ mkUrl host path q, urlOutChar c :=
    mkUrl_chars host path q hh3 hp3 hqc
  have h0 : pyStrip (mkUrl host path q) = mkUrl host path q :=
    pyStrip_id _ (fun c hc => urlOutChar_notWs c (hchars c hc))
  have ht2 : ¬((mkUrl host path q).take 2 = ['/', '/']) := by
    intro h
    have h2 : (['h', 't'] : List Char) = ['/', '/'] := h
    exact absurd h2 (by decide)
  have ht1 : ¬((mkUrl host path q).take 1 = ['/']) := by
    intro h
    have h2 : (['h'] : List Char) = ['/'] := h
    exact absurd h2 (by decide)
  have hparse := urlparseL_mkUrl host path q hh3 hp3 hqc
  rw [norm_url_l_eval (mkUrl host path q) _ h0 ht2 ht1 hparse]
  show lowerL (urlunparseL ⟨['h', 't', 't', 'p', 's'], host, '/' :: path, [],
      urlencodeL ((parseQsl (if q.isEmpty then [] else encQ q)).filter
        (fun kv => !(badParams.contains kv.1))), []⟩) =
    mkUrl host path (q.filter (fun kv => !(badParams.contains kv.1)))
  cases q with
  | nil =>
    show lowerL (urlunparseL
      ⟨['h', 't', 't', 'p', 's'], host, '/' :: path, [], [], []⟩) =
      mkUrl host path []
    rw [urlunparseL_eval host path [] hhne]
    exact map_id_of _ (fun c hc => urlOutChar_lower c (hchars c hc))
  | cons kv rest =>
    have hpq : parseQsl (if (kv :: rest).isEmpty then [] else encQ (kv :: rest)) =
        kv :: rest := by
      show parseQsl (encQ (kv :: rest)) = kv :: rest
      exact parseQsl_encQ (kv :: rest) hq3
    rw [hpq]
    have hkeptq : ∀ p2 ∈ (kv :: rest).filter (fun p2 => !(badParams.contains p2.1)),
        (∀ c ∈ p2.1, qChar c = true) ∧ ∀ c ∈ p2.2, qChar c = true :=
      fun p2 hp2 => hqc p2 (List.mem_of_mem_filter hp2)
    have henc : urlencodeL ((kv :: rest).filter
          (fun p2 => !(badParams.contains p2.1))) =
        encQ ((kv :: rest).filter (fun p2 => !(badParams.contains p2.1))) :=
      urlencodeL_encQ _ hkeptq
    rw [henc]
    rw [urlunparseL_eval host path
      (encQ ((kv :: rest).filter (fun p2 => !(badParams.contains p2.1)))) hhne]
    rw [encQ_isEmpty]
    have hcharsKept : ∀ c ∈ mkUrl host path
        ((kv :: rest).filter (fun p2 => !(badParams.contains p2.1))), urlOutChar c :=
      mkUrl_chars host path _ hh3 hp3 hkeptq
    exact map_id_of _ (fun c hc => urlOutChar_lower c (hcharsKept c hc))

theorem norm_url_mkUrl (host path : List Char) (q : List (List Char × List Char))
    (hh : hostOkB host = true) (hp : pathOkB path = true) (hq : qOkB q = true) :
    norm_url (String.mk (mkUrl host path q)) =
      String.mk (mkUrl host path
        (q.filter (fun kv => !(badParams.contains kv.1)))) := by
  unfold norm_url
  rw [if_neg (mk_ne_empty _ (by simp [mkUrl]))]
  show String.mk (norm_url_l (mkUrl host path q)) = _
  rw [norm_url_l_mkUrl host path q hh hp hq]

/-- C4 counterexample: two URLs that differ only in letter case
(lower-casing both gives the same string) do NOT normalize to the same
key — the tracking-parameter set membership test runs before the final
lower-casing and is case-sensitive, so `UTM_SOURCE` survives where
`utm_source` is stripped. -/
theorem C4_counterexample :
    lowerL "https://x/?a=1&UTM_SOURCE=y".data =
      lowerL "https://x/?a=1&utm_source=y".data ∧
    norm_url "https://x/?a=1&UTM_SOURCE=y" ≠
      norm_url "https://x/?a=1&utm_source=y" := by
  decide

/-- C4 (amended): on well-formed https URLs, normalization depends only
on the query left after dropping the (case-sensitively spelt) tracking
parameters: any two well-formed queries with the same retained
parameters — in particular a query and the same query with tracking
parameters inserted — give the same key; and the claim's three concrete
examples do all agree. Letter-case invariance, however, only holds for
the parts outside the query names (see the counterexample). -/
theorem C4_tracking_param_invariance (host path : List Char)
    (q1 q2 : List (List Char × List Char)) (hh : hostOkB host = true)
    (hp : pathOkB path = true) (hq1 : qOkB q1 = true) (hq2 : qOkB q2 = true)
    (hsame : q1.filter (fun kv => !(badParams.contains kv.1)) =
      q2.filter (fun kv => !(badParams.contains kv.1))) :
    norm_url (String.mk (mkUrl host path q1)) =
      norm_url (String.mk (mkUrl host path q2)) ∧
    norm_url "https://x/?a=1&utm_source=y" = norm_url "https://x/?a=1" ∧
    norm_url "HTTPS://X/?a=1&utm_source=y" = norm_url "https://x/?a=1" := by
  refine ⟨?_, by decide, by decide⟩
  rw [norm_url_mkUrl host path q1 hh hp hq1,
    norm_url_mkUrl host path q2 hh hp hq2, hsame]

/-- C4 witness: the invariance instantiated at
`https://x/?a=1&utm_source=y` vs `https://x/?a=1` in structured form. -/
theorem C4_tracking_param_invariance_witness :
    norm_url (String.mk (mkUrl "x".data []
        [("a".data, "1".data), ("utm_source".data, "y".data)])) =
      norm_url (String.mk (mkUrl "x".data [] [("a".data, "1".data)])) ∧
    norm_url "https://x/?a=1&utm_source=y" = norm_url "https://x/?a=1" ∧
    norm_url "HTTPS://X/?a=1&utm_source=y" = norm_url "https://x/?a=1" :=
  C4_tracking_param_invariance "x".data []
    [("a".data, "1".data), ("utm_source".data, "y".data)]
    [("a".data, "1".data)]
    (by decide) (by decide) (by decide) (by decide) (by decide)

/-- C9 counterexample: normalization is NOT idempotent on all locators —
`https://x/?CID=1` normalizes to `https://x/?cid=1` (the case-sensitive
tracking test misses `CID`, then the final lower-casing produces `cid`),
and normalizing that result strips `cid`, giving `https://x/`. -/
theorem C9_counterexample :
    norm_url (norm_url "https://x/?CID=1") ≠ norm_url "https://x/?CID=1" := by
  decide

/-- C9 (amended): normalization IS idempotent on well-formed lowercase
https URLs (host of lowercase letters, digits, dots, hyphens; path over
the same alphabet plus slashes; nonempty query names and values of
lowercase letters, digits, underscores): the first pass strips exactly
the tracking parameters and changes nothing else, and a second pass
strips nothing further. -/
theorem C9_idempotent_normalization (host path : List Char)
    (q : List (List Char × List Char)) (hh : hostOkB host = true)
    (hp : pathOkB path = true) (hq : qOkB q = true) :
    norm_url (norm_url (String.mk (mkUrl host path q))) =
      norm_url (String.mk (mkUrl host path q)) := by
  rw [norm_url_mkUrl host path q hh hp hq,
    norm_url_mkUrl host path _ hh hp
      (qOkB_filter q (fun kv => !(badParams.contains kv.1)) hq),
    filter_idem]

/-- C9 witness: idempotence instantiated at `https://x/?cid=1`. -/
theorem C9_idempotent_normalization_witness :
    norm_url (norm_url (String.mk (mkUrl "x".data []
        [("cid".data, "1".data)]))) =
      norm_url (String.mk (mkUrl "x".data [] [("cid".data, "1".data)])) :=
  C9_idempotent_normalization "x".data [] [("cid".data, "1".data)]
    (by decide) (by decide) (by decide)

end Qoo10
